import Mathlib

/-!
# Timed channel (package `channel`)

A shallow embedding of `src/channel/channel.go`: a buffered Go channel wrapped by
deadline-aware `Push*` / `Pop*` operations that log a warning when the deadline
fires and then fall back to an unbounded blocking send / receive.

Layout
* the substrate the source runs on: logical time, `context.Context`, the
  structured logger, Go channels;
* the source functions, each `select` statement as a program-counter machine;
* the system: one queue, the goroutines inside its calls, a scheduler;
* theorems.
-/

namespace channel

/-! ## Substrate -/

/-- Instants and `time.Duration` values, both counted in nanoseconds. -/
abbrev Duration := Int

/-- The constant `time.Second`. -/
def Second : Duration := 1000000000

/-- Source line 10: `const defaultChannelTimeout = time.Second * 1`. -/
def defaultChannelTimeout : Duration := Second * 1

/-- Source line 12: the text of the error value `FailedPush`. -/
def FailedPush : String := "blocked on Push"

/-- Source line 13: the text of the error value `FailedPop`. -/
def FailedPop : String := "blocked on Pop"

/-- A `context.Context` as far as the source looks at it: the instant at which its
`Done()` channel is closed (by a deadline or by an external cancel), `none` when that
never happens. -/
structure Ctx where
  doneAt : Option Int
  deriving DecidableEq, Repr

/-- The context `context.Background()`: never done. -/
def Background : Ctx := { doneAt := none }

/-- The context `context.WithTimeout(parent, t)` created at instant `now`: done at
`now + t`, or when the parent is done if that is earlier. A duration `t <= 0` gives a
context that is done from its creation on. -/
def WithTimeout (now : Int) (parent : Ctx) (t : Duration) : Ctx :=
  match parent.doneAt with
  | none => { doneAt := some (now + t) }
  | some p => { doneAt := some (min p (now + t)) }

/-- Whether a receive from `ctx.Done()` can proceed at instant `now`. -/
def Ctx.Done (ctx : Ctx) (now : Int) : Bool :=
  match ctx.doneAt with
  | some t => decide (t ≤ now)
  | none => false

/-- Log levels of the structured logger. -/
inductive Level where
  | info
  | warn
  deriving DecidableEq, Repr

/-- One record handed to the logger: its level, the context fields of the logger that
wrote it, and the error put under the key "failed channel". The message of a warning is
the text of `debug.Stack()`, which is left out. -/
structure Record where
  level : Level
  fields : List (String × Int)
  failed : String
  deriving DecidableEq, Repr

/-- A `zerolog.Logger` value: the context fields it adds to every record it writes. -/
structure ZLogger where
  fields : List (String × Int)
  deriving DecidableEq, Repr

/-- The chain `l.With().Int(key, v).Logger()`: a child logger whose context has one more
field. Nothing is written. -/
def ZLogger.WithInt (l : ZLogger) (key : String) (v : Int) : ZLogger :=
  { fields := l.fields ++ [(key, v)] }

/-- The chain `l.Warn().AnErr("failed channel", err).Msg(..)`: the one record written. -/
def ZLogger.WarnAnErr (l : ZLogger) (err : String) : Record :=
  { level := Level.warn, fields := l.fields, failed := err }

/-- A Go channel `chan T`: the buffered elements, oldest first, and the capacity given to
`make`. -/
structure Chan (T : Type) where
  buf : List T
  cap : Nat
  deriving DecidableEq, Repr

/-- What `make(chan T, n)` depends on besides `n`: the element type on the platform at
hand, through the largest `n` the runtime grants for it. The runtime panics with
"makechan: size out of range" when `n` times the size of an element overflows or exceeds
the allocation limit; `n` itself is an `int` of 64 bits. Whether the machine has that much
memory left is not part of the model. -/
class ChanElem (T : Type) where
  maxCap : Nat
  maxCap_lt : maxCap < 2 ^ 63

/-- The allocation limit of the Go runtime on linux/amd64, in bytes. -/
def maxAlloc : Nat := 2 ^ 48

/-- The bytes the size check of `makechan` sets aside for the header of a channel: 96
on linux/amd64 up to Go 1.22, a few more in later releases. -/
def hchanSize : Nat := 96

/-- Elements of type `int` on linux/amd64, 8 bytes each: the sizes that pass the size
check of `makechan`. -/
instance : ChanElem Nat where
  maxCap := (maxAlloc - hchanSize) / 8
  maxCap_lt := by decide

/-- Elements of type `bool` on linux/amd64, 1 byte each. -/
instance : ChanElem Bool where
  maxCap := maxAlloc - hchanSize
  maxCap_lt := by decide

/-- The builtin `make(chan T, size)`: it panics (`none`) on a negative size and on a size
beyond what the runtime grants for the element type. -/
def make (T : Type) [ChanElem T] (size : Int) : Option (Chan T) :=
  if size < 0 ∨ (ChanElem.maxCap T : Int) < size then none
  else some { buf := [], cap := size.toNat }

/-- The builtin `len(c)`. -/
def Chan.len {T : Type} (c : Chan T) : Int := c.buf.length

/-- A send `c <- e` can proceed through the buffer: there is a free slot. -/
def Chan.canSend {T : Type} (c : Chan T) : Bool := decide (c.buf.length < c.cap)

/-- The effect of a send through the buffer: `e` becomes the youngest element. -/
def Chan.send {T : Type} (c : Chan T) (e : T) : Chan T := { c with buf := c.buf ++ [e] }

/-- A receive `<-c` through the buffer: the oldest element and the rest, `none` when the
buffer is empty. -/
def Chan.recv {T : Type} (c : Chan T) : Option (T × Chan T) :=
  match c.buf with
  | [] => none
  | v :: rest => some (v, { c with buf := rest })

/-! ## The source functions -/

/-- Source lines 15-17: `type Timed[T any] struct { c chan T }`. -/
structure Timed (T : Type) where
  c : Chan T
  deriving DecidableEq, Repr

/-- Source lines 20-26. The package-level `Logger` is replaced by a child logger that
carries the field `size`; the queue holds a fresh channel of capacity `bufSize`; `make`
panics on a size it does not accept. The result is the new `Logger`, the queue and the
records written, of which there are none: line 21 builds a logger and calls no `Msg`. -/
def WithExpiration (T : Type) [ChanElem T] (Logger : ZLogger) (bufSize : Int) :
    Option (ZLogger × Timed T × List Record) :=
  match make T bufSize with
  | none => none
  | some ch => some (Logger.WithInt "size" bufSize, { c := ch }, [])

/-- Which case of a `select` is taken. When both can proceed Go picks one of them
pseudo-randomly, so the pick is an input. -/
inductive Choice where
  | comm
  | done
  deriving DecidableEq, Repr

/-- Where a goroutine stands inside `PushWithContext`: at the `select` of line 31, at
the plain send of line 36, or past the return. -/
inductive PushPc where
  | select
  | send
  | returned
  deriving DecidableEq, Repr

/-- Where a goroutine stands inside `PopWithContext`: at the `select` of line 63, at the
plain receive of line 67, or past the `return e` of line 70. -/
inductive PopPc (T : Type) where
  | select
  | recv
  | returned (e : T)
  deriving DecidableEq, Repr

/-- What the channel saw happen in a step. -/
inductive Event (T : Type) where
  | sent (e : T)
  | received (e : T)
  | len (n : Int)
  deriving DecidableEq, Repr

/-- Source lines 30-38, one step of a goroutine through the buffer or the deadline.
The result is the next program counter, the channel, the records written and the events;
`none` when the chosen case cannot proceed (the goroutine stays parked). -/
def PushWithContext_step {T : Type} (now : Int) (Logger : ZLogger) (ctx : Ctx) (e : T)
    (choice : Choice) (c : Chan T) :
    PushPc → Option (PushPc × Chan T × List Record × List (Event T))
  | PushPc.select =>
    match choice with
    | Choice.comm =>
      if c.canSend then some (PushPc.returned, c.send e, [], [Event.sent e]) else none
    | Choice.done =>
      if ctx.Done now then some (PushPc.send, c, [Logger.WarnAnErr FailedPush], [])
      else none
  | PushPc.send =>
    match choice with
    | Choice.comm =>
      if c.canSend then some (PushPc.returned, c.send e, [], [Event.sent e]) else none
    | Choice.done => none
  | PushPc.returned => none

/-- Source lines 60-71, one step of a goroutine through the buffer or the deadline. -/
def PopWithContext_step {T : Type} (now : Int) (Logger : ZLogger) (ctx : Ctx)
    (choice : Choice) (c : Chan T) :
    PopPc T → Option (PopPc T × Chan T × List Record × List (Event T))
  | PopPc.select =>
    match choice with
    | Choice.comm =>
      match c.recv with
      | some (v, c1) => some (PopPc.returned v, c1, [], [Event.received v])
      | none => none
    | Choice.done =>
      if ctx.Done now then some (PopPc.recv, c, [Logger.WarnAnErr FailedPop], [])
      else none
  | PopPc.recv =>
    match choice with
    | Choice.comm =>
      match c.recv with
      | some (v, c1) => some (PopPc.returned v, c1, [], [Event.received v])
      | none => none
    | Choice.done => none
  | PopPc.returned _ => none

/-- A goroutine inside a call on the queue. A plain send or receive on the raw channel
is a goroutine standing at line 36 or at line 67. -/
inductive Thread (T : Type) where
  | push (ctx : Ctx) (e : T) (pc : PushPc)
  | pop (ctx : Ctx) (pc : PopPc T)
  deriving DecidableEq, Repr

/-- Source lines 30-38: a goroutine entering `PushWithContext(ctx, e)`. -/
def PushWithContext {T : Type} (ctx : Ctx) (e : T) : Thread T :=
  Thread.push ctx e PushPc.select

/-- Source lines 42-47: the context is derived from `t` at the instant of the call,
then the body is `PushWithContext`. The deferred `cancel` runs after the return. -/
def PushWithTimeout {T : Type} (now : Int) (t : Duration) (e : T) : Thread T :=
  let ctx := WithTimeout now Background t
  PushWithContext ctx e

/-- Source lines 51-56: as `PushWithTimeout`, the duration being the default one. -/
def Push {T : Type} (now : Int) (e : T) : Thread T :=
  let ctx := WithTimeout now Background defaultChannelTimeout
  PushWithContext ctx e

/-- Source lines 60-71: a goroutine entering `PopWithContext(ctx)`. -/
def PopWithContext {T : Type} (ctx : Ctx) : Thread T :=
  Thread.pop ctx PopPc.select

/-- Source lines 75-80. -/
def PopWithTimeout {T : Type} (now : Int) (t : Duration) : Thread T :=
  let ctx := WithTimeout now Background t
  PopWithContext ctx

/-- Source lines 84-89. -/
def Pop {T : Type} (now : Int) : Thread T :=
  let ctx := WithTimeout now Background defaultChannelTimeout
  PopWithContext ctx

/-- Source lines 92-94: `len(c.c)`. -/
def Len {T : Type} (q : Timed T) : Int := q.c.len

/-- A pointer to a channel variable of a queue, `*chan T`: how the variable is read and
how it is written. -/
structure ChanPtr (T : Type) where
  load : Timed T → Chan T
  store : Timed T → Chan T → Timed T

/-- Source lines 97-99: `return &c.c`, the pointer to the field `c` of the receiver. -/
def Channel {T : Type} : ChanPtr T :=
  { load := fun q => q.c, store := fun q ch => { q with c := ch } }

/-- The send `*p <- e` through a pointer, when it can proceed through the buffer: the
channel is read through the pointer and its new state is written through the pointer. -/
def ChanPtr.send {T : Type} (p : ChanPtr T) (e : T) (q : Timed T) : Option (Timed T) :=
  if (p.load q).canSend then some (p.store q ((p.load q).send e)) else none

/-- The receive `<-*p` through a pointer, when it can proceed through the buffer. -/
def ChanPtr.recv {T : Type} (p : ChanPtr T) (q : Timed T) : Option (T × Timed T) :=
  match (p.load q).recv with
  | some (v, ch) => some (v, p.store q ch)
  | none => none

/-! ## The system: one queue, its goroutines, a scheduler -/

/-- The state of the system: the clock, the package-level `Logger`, the records written
so far, the queue, and the goroutines that have entered a call on it (in the order they
entered; a goroutine keeps its slot after it returned). -/
structure World (T : Type) where
  now : Int
  Logger : ZLogger
  out : List Record
  q : Timed T
  threads : List (Thread T)
  deriving DecidableEq, Repr

/-- The goroutine stands at a send: the `select` of line 31 or the send of line 36. -/
def Thread.sending {T : Type} : Thread T → Bool
  | Thread.push _ _ PushPc.select => true
  | Thread.push _ _ PushPc.send => true
  | _ => false

/-- The goroutine stands at a receive: the `select` of line 63 or the receive of line 67. -/
def Thread.receiving {T : Type} : Thread T → Bool
  | Thread.pop _ PopPc.select => true
  | Thread.pop _ PopPc.recv => true
  | _ => false

/-- The goroutine has returned from its call. -/
def Thread.returned {T : Type} : Thread T → Bool
  | Thread.push _ _ PushPc.returned => true
  | Thread.pop _ (PopPc.returned _) => true
  | _ => false

/-- The value a goroutine returned from a pop. -/
def Thread.result {T : Type} : Thread T → Option T
  | Thread.pop _ (PopPc.returned v) => some v
  | _ => none

/-- One step of a goroutine on its own: the source function it is in, at its program
counter, against the channel of the queue. -/
def Thread.step {T : Type} (now : Int) (Logger : ZLogger) (choice : Choice) (c : Chan T) :
    Thread T → Option (Thread T × Chan T × List Record × List (Event T))
  | Thread.push ctx e pc =>
    match PushWithContext_step now Logger ctx e choice c pc with
    | some (pc1, c1, recs, evs) => some (Thread.push ctx e pc1, c1, recs, evs)
    | none => none
  | Thread.pop ctx pc =>
    match PopWithContext_step now Logger ctx choice c pc with
    | some (pc1, c1, recs, evs) => some (Thread.pop ctx pc1, c1, recs, evs)
    | none => none

/-- The buffer is empty and a sender and a receiver are both waiting: the value can be
handed over. -/
def World.handoffReady {T : Type} (w : World T) : Bool :=
  w.q.c.buf.isEmpty && w.threads.any Thread.sending && w.threads.any Thread.receiving

/-- What can happen next: a goroutine enters a call of the API or uses the raw channel,
another queue is constructed, a goroutine takes a step, a send meets a waiting receive,
or time passes. -/
inductive Action (T : Type) where
  | PushWithContext (ctx : Ctx) (e : T)
  | PushWithTimeout (t : Duration) (e : T)
  | Push (e : T)
  | PopWithContext (ctx : Ctx)
  | PopWithTimeout (t : Duration)
  | Pop
  | Len
  | Channel
  | rawSend (e : T)
  | rawRecv
  | WithExpiration (bufSize : Int)
  | run (i : Nat) (choice : Choice)
  | handoff (i j : Nat)
  | tick (dt : Int)
  deriving DecidableEq, Repr

/-- A goroutine enters a call. -/
def World.spawn {T : Type} (w : World T) (th : Thread T) : World T :=
  { w with threads := w.threads ++ [th] }

/-- One step of the system, with the events the channel saw; `none` when the action
cannot happen in this state.

* `run i choice`: goroutine `i` takes the chosen case of the statement it stands at.
* `handoff i j`: the buffer is empty and the receiver `j` is waiting, so the sender `i`
  passes its value straight to it and both return; the buffer is not used. On an
  unbuffered channel (capacity 0) this is the only way a value gets across.
* `tick dt`: time passes.
* A receive from a full buffer on which a send is parked is one operation in Go; here it
  is two steps, the receive and the send (`recvRefill`), so the state between them is one
  more state than Go shows. What holds in every state of the system holds in every state
  of Go.
* `WithExpiration n`: some other queue is constructed; this queue sees the new `Logger`. -/
def step {T : Type} [ChanElem T] : Action T → World T → Option (World T × List (Event T))
  | Action.PushWithContext ctx e, w => some (w.spawn (PushWithContext ctx e), [])
  | Action.PushWithTimeout t e, w => some (w.spawn (PushWithTimeout w.now t e), [])
  | Action.Push e, w => some (w.spawn (Push w.now e), [])
  | Action.PopWithContext ctx, w => some (w.spawn (PopWithContext ctx), [])
  | Action.PopWithTimeout t, w => some (w.spawn (PopWithTimeout w.now t), [])
  | Action.Pop, w => some (w.spawn (Pop w.now), [])
  | Action.Len, w => some (w, [Event.len (Len w.q)])
  | Action.Channel, w => some (w, [])
  | Action.rawSend e, w => some (w.spawn (Thread.push Background e PushPc.send), [])
  | Action.rawRecv, w => some (w.spawn (Thread.pop Background PopPc.recv), [])
  | Action.WithExpiration n, w =>
    match WithExpiration T w.Logger n with
    | some (l, _, recs) => some ({ w with Logger := l, out := w.out ++ recs }, [])
    | none => none
  | Action.run i choice, w =>
    match w.threads[i]? with
    | none => none
    | some th =>
      match th.step w.now w.Logger choice w.q.c with
      | none => none
      | some (th1, c1, recs, evs) =>
        some ({ w with q := { c := c1 }, out := w.out ++ recs,
                       threads := w.threads.set i th1 }, evs)
  | Action.handoff i j, w =>
    if w.q.c.buf.isEmpty then
      match w.threads[i]?, w.threads[j]? with
      | some (Thread.push ctx e pc), some (Thread.pop ctx1 pc1) =>
        if (Thread.push ctx e pc).sending && (Thread.pop ctx1 pc1).receiving then
          let ths := w.threads.set i (Thread.push ctx e PushPc.returned)
          some ({ w with threads := ths.set j (Thread.pop ctx1 (PopPc.returned e)) },
                [Event.sent e, Event.received e])
        else none
      | _, _ => none
    else none
  | Action.tick dt, w =>
    if 0 < dt then some ({ w with now := w.now + dt }, []) else none

/-- A schedule: the actions happen one after the other; the events are collected. -/
def run {T : Type} [ChanElem T] : List (Action T) → World T → Option (World T × List (Event T))
  | [], w => some (w, [])
  | a :: rest, w =>
    match step a w with
    | none => none
    | some (w1, evs) =>
      match run rest w1 with
      | none => none
      | some (w2, tr) => some (w2, evs ++ tr)

/-- The values sent into the channel, in the order the sends completed. -/
def pushed {T : Type} : List (Event T) → List T
  | [] => []
  | Event.sent e :: tr => e :: pushed tr
  | _ :: tr => pushed tr

/-- The values received from the channel, in the order the receives completed. -/
def popped {T : Type} : List (Event T) → List T
  | [] => []
  | Event.received e :: tr => e :: popped tr
  | _ :: tr => popped tr

/-- The system right after the queue was constructed: no goroutine has called it yet. -/
def World.fresh {T : Type} (now : Int) (Logger : ZLogger) (out : List Record) (q : Timed T) :
    World T :=
  { now := now, Logger := Logger, out := out, q := q, threads := [] }

/-! ### A call that nobody interferes with -/

/-- The other case of a `select`. -/
def Choice.other : Choice → Choice
  | Choice.comm => Choice.done
  | Choice.done => Choice.comm

/-- Goroutine `i` runs as far as it gets without time passing and without any other
goroutine moving. `pref` is the case its `select` takes when both are ready. After the
deadline case the plain send or receive follows at once if it can proceed. -/
def finish {T : Type} [ChanElem T] (pref : Choice) (i : Nat) (w : World T) : World T × List (Event T) :=
  let first := match step (Action.run i pref) w with
    | some r => some r
    | none => step (Action.run i pref.other) w
  match first with
  | none => (w, [])
  | some (w1, ev1) =>
    match step (Action.run i Choice.comm) w1 with
    | some (w2, ev2) => (w2, ev1 ++ ev2)
    | none => (w1, ev1)

/-- A goroutine enters the call `a` and runs as far as it gets on its own. -/
def call {T : Type} [ChanElem T] (pref : Choice) (a : Action T) (w : World T) :
    Option (World T × List (Event T)) :=
  match step a w with
  | none => none
  | some (w1, ev) =>
    let r := finish pref w.threads.length w1
    some (r.1, ev ++ r.2)

/-- A sequential program: each call is made when the one before it has run as far as it
gets on its own. -/
def callSeq {T : Type} [ChanElem T] : List (Choice × Action T) → World T → Option (World T × List (Event T))
  | [], w => some (w, [])
  | (pref, a) :: rest, w =>
    match call pref a w with
    | none => none
    | some (w1, evs) =>
      match callSeq rest w1 with
      | none => none
      | some (w2, tr) => some (w2, evs ++ tr)

/-- A record is one of the two deadline warnings: level `warn`, tagged with `FailedPush`
or with `FailedPop`. -/
def Record.isWarning (r : Record) : Prop :=
  r.level = Level.warn ∧ (r.failed = FailedPush ∨ r.failed = FailedPop)

/-- What a step keeps, as one predicate on the state before, the state after and the
events: the capacity; the buffer within the capacity, values moving only at its two ends;
the context fields of the logger; and the records so far, after which only deadline
warnings with the current context are written. -/
def Keeps {T : Type} (w w1 : World T) (evs : List (Event T)) : Prop :=
  w1.q.c.cap = w.q.c.cap ∧
    (w.q.c.buf.length ≤ w.q.c.cap →
      w.q.c.buf ++ pushed evs = popped evs ++ w1.q.c.buf ∧
      w1.q.c.buf.length ≤ w1.q.c.cap) ∧
    (∀ f ∈ w.Logger.fields, f ∈ w1.Logger.fields) ∧
    (∃ recs, w1.out = w.out ++ recs ∧
      ∀ r ∈ recs, r.isWarning ∧ ∀ f ∈ w.Logger.fields, f ∈ r.fields)

/-! ### Programs and predicates the statements use -/

/-- The sequential program of `K` pushes followed by `J` pops, each call with the case its
`select` would prefer. -/
def pushesThenPops {T : Type} (pushes : List (Choice × T)) (pops : List Choice) :
    List (Choice × Action T) :=
  pushes.map (fun p => (p.1, Action.Push p.2)) ++ pops.map (fun c => (c, Action.Pop))

/-- What a sequential program of calls that all returned at once leaves behind. -/
def Returned {T : Type} (w w1 : World T) (buf : List T) (n : Nat) : Prop :=
  w1.q.c.buf = buf ∧ w1.q.c.cap = w.q.c.cap ∧ w1.now = w.now ∧ w1.out = w.out ∧
    w1.Logger = w.Logger ∧ w1.threads.length = w.threads.length + n ∧
    (w.threads.all Thread.returned = true → w1.threads.all Thread.returned = true)

/-- The words of the spec for `Push`: `PushWithTimeout` at the default duration of one
second. -/
def Push_spec {T : Type} (now : Int) (e : T) : Thread T := PushWithTimeout now 1000000000 e

/-- The words of the spec for `Pop`: `PopWithTimeout` at the default duration of one
second. -/
def Pop_spec {T : Type} (now : Int) : Thread T := PopWithTimeout now 1000000000

/-- The state after goroutine `i` took the deadline case of `PushWithContext(ctx, e)`:
one warning more, the goroutine at the plain send of line 36. -/
def World.warned {T : Type} (w : World T) (i : Nat) (ctx : Ctx) (e : T) : World T :=
  { w with out := w.out ++ [w.Logger.WarnAnErr FailedPush],
           threads := w.threads.set i (Thread.push ctx e PushPc.send) }

/-! ### Concrete states and schedules -/

/-- Two pushes enter, the second is stored first, then a pop takes the oldest value. -/
def demoSchedule : List (Action Nat) :=
  [Action.Push 10, Action.Push 20, Action.run 1 Choice.comm, Action.run 0 Choice.comm,
    Action.Pop, Action.run 2 Choice.comm]

/-- The state `demoSchedule` ends in on a fresh queue of capacity 2. -/
def demoWorld : World Nat :=
  { now := 0, Logger := { fields := [("size", 2)] }, out := [],
    q := { c := { buf := [10], cap := 2 } },
    threads := [Thread.push { doneAt := some 1000000000 } 10 PushPc.returned,
      Thread.push { doneAt := some 1000000000 } 20 PushPc.returned,
      Thread.pop { doneAt := some 1000000000 } (PopPc.returned 20)] }

/-- Two pushes enter a queue of capacity 1, the first is stored, `Len` is read. -/
def fullSchedule : List (Action Nat) :=
  [Action.Push 10, Action.Push 20, Action.run 0 Choice.comm, Action.Len]

/-- The state `fullSchedule` ends in on a fresh queue of capacity 1: the second push is
parked at its `select`. -/
def fullWorld : World Nat :=
  { now := 0, Logger := { fields := [("size", 1)] }, out := [],
    q := { c := { buf := [10], cap := 1 } },
    threads := [Thread.push { doneAt := some 1000000000 } 10 PushPc.returned,
      Thread.push { doneAt := some 1000000000 } 20 PushPc.select] }

/-- A fresh queue of capacity 1 at instant 0, as `WithExpiration 1` leaves it. -/
def fresh1 : World Nat :=
  World.fresh 0 { fields := [("size", 1)] } [] { c := { buf := [], cap := 1 } }

/-- A queue of capacity 1 that holds the value 5, at instant 0, nobody waiting. -/
def held1 : World Nat :=
  World.fresh 0 { fields := [("size", 1)] } [] { c := { buf := [5], cap := 1 } }

/-- A queue of capacity 1 is filled, then a push whose deadline has fired arrives and
takes the deadline case. -/
def blockedSchedule : List (Action Nat) :=
  [Action.Push 1, Action.run 0 Choice.comm, Action.PushWithContext { doneAt := some 0 } 7,
    Action.run 1 Choice.done]

/-- The schedule `blockedSchedule`, with another queue of capacity 5 constructed before the
blocked push arrives. -/
def blockedScheduleOther : List (Action Nat) :=
  [Action.Push 1, Action.run 0 Choice.comm, Action.WithExpiration 5,
    Action.PushWithContext { doneAt := some 0 } 7, Action.run 1 Choice.done]

/-- The state `blockedSchedule` ends in on `fresh1`: the queue is full, the second push
has written its warning and stands at the plain send. -/
def blockedWorld : World Nat :=
  { now := 0, Logger := { fields := [("size", 1)] },
    out := [{ level := Level.warn, fields := [("size", 1)], failed := "blocked on Push" }],
    q := { c := { buf := [1], cap := 1 } },
    threads := [Thread.push { doneAt := some 1000000000 } 1 PushPc.returned,
      Thread.push { doneAt := some 0 } 7 PushPc.send] }

/-- The state `fresh1` is in after another queue of capacity 5 was constructed. -/
def otherWorld : World Nat :=
  { now := 0, Logger := { fields := [("size", 1), ("size", 5)] }, out := [],
    q := { c := { buf := [], cap := 1 } }, threads := [] }

/-- A fresh queue of capacity 0 at instant 0, as `WithExpiration 0` leaves it. -/
def fresh0 : World Nat :=
  World.fresh 0 { fields := [("size", 0)] } [] { c := { buf := [], cap := 0 } }

/-- On an unbuffered queue a `Pop` waits, a `PushWithContext` of 7 arrives, the value is
handed over. -/
def handoffSchedule : List (Action Nat) :=
  [Action.Pop, Action.PushWithContext Background 7, Action.handoff 1 0]

/-- A queue of capacity 1 is empty; a `PushWithContext` of 7 whose context is done stands
at its `select`. -/
def arrived1 : World Nat :=
  { now := 0, Logger := { fields := [("size", 1)] }, out := [],
    q := { c := { buf := [], cap := 1 } },
    threads := [Thread.push { doneAt := some 0 } 7 PushPc.select] }

/-- The state `arrived1` after the send case was taken. -/
def stored1 : World Nat :=
  { now := 0, Logger := { fields := [("size", 1)] }, out := [],
    q := { c := { buf := [7], cap := 1 } },
    threads := [Thread.push { doneAt := some 0 } 7 PushPc.returned] }

/-- On an unbuffered queue a push of 7 arrives with its deadline fired and warns; then a
`Pop` arrives and the value is handed over. -/
def lateHandoffSchedule : List (Action Nat) :=
  [Action.PushWithContext { doneAt := some 0 } 7, Action.run 0 Choice.done, Action.Pop,
    Action.handoff 0 1]

/-- A queue of capacity 1 holds the value 1; a push of 7 whose deadline has fired stands
at its `select`. -/
def waiting1 : World Nat :=
  { now := 0, Logger := { fields := [("size", 1)] }, out := [],
    q := { c := { buf := [1], cap := 1 } },
    threads := [Thread.push { doneAt := some 1000000000 } 1 PushPc.returned,
      Thread.push { doneAt := some 0 } 7 PushPc.select] }

/-! ### Completed calls, read off the goroutines -/

/-- What one goroutine adds to the pushes that completed in a step: the value of a send
that is past its return after the step and was not before. `old` is the goroutine before
the step, `none` when it has just entered. -/
def pushDone {T : Type} (old : Option (Thread T)) (new : Thread T) : List T :=
  match new with
  | Thread.push _ e PushPc.returned =>
    match old with
    | some th => if th.returned then [] else [e]
    | none => [e]
  | _ => []

/-- What one goroutine adds to the values returned by pops in a step: the result of a
receive that has returned after the step and had not before. -/
def popDone {T : Type} (old : Option (Thread T)) (new : Thread T) : List T :=
  match new.result with
  | some v =>
    match old with
    | some th => if th.returned then [] else [v]
    | none => [v]
  | none => []

/-- The goroutines before and after a step, slot by slot, and what each slot adds. -/
def collect {T : Type} (f : Option (Thread T) → Thread T → List T) :
    List (Thread T) → List (Thread T) → List T
  | _, [] => []
  | [], th :: after => f none th ++ collect f [] after
  | old :: before, th :: after => f (some old) th ++ collect f before after

/-- The values of the pushes (and raw sends) that completed in a step. -/
def completedPushes {T : Type} (before after : List (Thread T)) : List T :=
  collect pushDone before after

/-- The values the pops (and raw receives) that completed in a step returned. -/
def returnedByPops {T : Type} (before after : List (Thread T)) : List T :=
  collect popDone before after

/-- A schedule, observed at the calls: the state it ends in, the values of the pushes in
the order the pushes completed, and the values returned by the pops in the order the pops
returned. Nothing is taken from the events of the channel. -/
def history {T : Type} [ChanElem T] :
    List (Action T) → World T → Option (World T × List T × List T)
  | [], w => some (w, [], [])
  | a :: rest, w =>
    match step a w with
    | none => none
    | some (w1, _) =>
      match history rest w1 with
      | none => none
      | some (w2, ps, rs) =>
        some (w2, completedPushes w.threads w1.threads ++ ps,
          returnedByPops w.threads w1.threads ++ rs)

/-- The receive of the Go runtime from a full buffer on which a send is parked is one
operation: the receiver `j` takes the oldest value, the value of the parked sender `i`
enters the buffer and the sender returns. In the steps of the system it is the receive
followed at once by the send; the state between the two is never seen in Go. -/
def recvRefill {T : Type} (j i : Nat) : List (Action T) :=
  [Action.run j Choice.comm, Action.run i Choice.comm]

/-- On an unbuffered queue a `Pop` is waiting when a push of 7 arrives with its deadline
fired; the value is handed over. -/
def readyHandoffSchedule : List (Action Nat) :=
  [Action.Pop, Action.PushWithContext { doneAt := some 0 } 7, Action.handoff 1 0]

/-- A queue of capacity 1 is filled; a push of 8 and then a push of 7 arrive with their
deadlines fired and warn; a `Pop` takes the oldest value and the push of 8, which has
waited longer, is served. -/
def otherServedSchedule : List (Action Nat) :=
  [Action.Push 1, Action.run 0 Choice.comm,
    Action.PushWithContext { doneAt := some 0 } 8, Action.run 1 Choice.done,
    Action.PushWithContext { doneAt := some 0 } 7, Action.run 2 Choice.done,
    Action.Pop] ++ recvRefill 3 1

/-- The state `waiting1` after the push of 7 took the deadline case: one warning is
written, the push stands at the plain send, the queue is still full. -/
def warned1 : World Nat :=
  { now := 0, Logger := { fields := [("size", 1)] },
    out := [{ level := Level.warn, fields := [("size", 1)], failed := "blocked on Push" }],
    q := { c := { buf := [1], cap := 1 } },
    threads := [Thread.push { doneAt := some 1000000000 } 1 PushPc.returned,
      Thread.push { doneAt := some 0 } 7 PushPc.send] }

end channel

namespace channel

variable {T : Type}

/-! ## Lemmas on lists and traces -/

theorem pushed_append (a b : List (Event T)) : pushed (a ++ b) = pushed a ++ pushed b := by
  induction a with
  | nil => rfl
  | cons x xs ih => cases x <;> simp [pushed, ih]

theorem popped_append (a b : List (Event T)) : popped (a ++ b) = popped a ++ popped b := by
  induction a with
  | nil => rfl
  | cons x xs ih => cases x <;> simp [popped, ih]

theorem set_length_append (l : List (Thread T)) (a b : Thread T) :
    (l ++ [a]).set l.length b = l ++ [b] := by
  induction l with
  | nil => rfl
  | cons x xs ih => simp [List.set, ih]

theorem getElem?_append_two {A : Type} (l : List A) (a b : A) :
    ((l ++ [a]) ++ [b])[l.length + 1]? = some b := by
  induction l with
  | nil => rfl
  | cons x xs ih => simpa using ih

theorem lt_of_getElem? {A : Type} (l : List A) (i : Nat) (a : A) (h : l[i]? = some a) :
    i < l.length := by
  by_contra hge
  rw [List.getElem?_eq_none (by omega)] at h
  exact absurd h (by simp)

/-! ## One step of a source function -/

/-- The context of `Push` and `Pop` is not done at the instant of the call. -/
theorem default_not_done (now : Int) :
    (WithTimeout now Background defaultChannelTimeout).Done now = false := by
  simp [WithTimeout, Background, Ctx.Done, defaultChannelTimeout, Second]

/-- What one step of `PushWithContext` can be: the deadline case, which writes one
warning and moves to the plain send, or a send through the buffer, which returns. -/
theorem PushWithContext_step_cases (now : Int) (L : ZLogger) (ctx : Ctx) (e : T)
    (choice : Choice) (c : Chan T) (pc pc1 : PushPc) (c1 : Chan T) (recs : List Record)
    (evs : List (Event T))
    (h : PushWithContext_step now L ctx e choice c pc = some (pc1, c1, recs, evs)) :
    (choice = Choice.done ∧ pc = PushPc.select ∧ ctx.Done now = true ∧ pc1 = PushPc.send ∧
        c1 = c ∧ recs = [L.WarnAnErr FailedPush] ∧ evs = []) ∨
    (choice = Choice.comm ∧ pc ≠ PushPc.returned ∧ c.buf.length < c.cap ∧
        pc1 = PushPc.returned ∧ c1 = c.send e ∧ recs = [] ∧ evs = [Event.sent e]) := by
  cases pc <;> cases choice <;> simp [PushWithContext_step, Chan.canSend] at h ⊢
  all_goals first
    | (obtain ⟨h1, h2, h3, h4, h5⟩ := h
       subst h2 h3 h4 h5
       simp_all)

/-- What one step of `PopWithContext` can be: the deadline case, which writes one warning
and moves to the plain receive, or a receive of the oldest element, which returns it. -/
theorem PopWithContext_step_cases (now : Int) (L : ZLogger) (ctx : Ctx)
    (choice : Choice) (c : Chan T) (pc pc1 : PopPc T) (c1 : Chan T) (recs : List Record)
    (evs : List (Event T))
    (h : PopWithContext_step now L ctx choice c pc = some (pc1, c1, recs, evs)) :
    (choice = Choice.done ∧ pc = PopPc.select ∧ ctx.Done now = true ∧ pc1 = PopPc.recv ∧
        c1 = c ∧ recs = [L.WarnAnErr FailedPop] ∧ evs = []) ∨
    (∃ v rest, choice = Choice.comm ∧ (pc = PopPc.select ∨ pc = PopPc.recv) ∧
        c.buf = v :: rest ∧ pc1 = PopPc.returned v ∧ c1 = { c with buf := rest } ∧
        recs = [] ∧ evs = [Event.received v]) := by
  rcases c with ⟨buf, cap⟩
  cases pc <;> cases choice <;> cases buf <;>
    simp [PopWithContext_step, Chan.recv] at h ⊢
  all_goals first
    | (obtain ⟨h1, h2, h3, h4, h5⟩ := h
       subst h2 h3 h4 h5
       simp_all)
    | (obtain ⟨h1, h2, h3, h4⟩ := h
       subst h1 h2 h3 h4
       simp_all
       done)
    | (obtain ⟨h1, h2, h3, h4⟩ := h
       subst h1 h2 h3 h4
       exact ⟨_, _, ⟨rfl, rfl⟩, rfl, rfl, rfl, rfl⟩)

/-- One step of a goroutine keeps the capacity, keeps the buffer within it, moves values
only at the two ends of the buffer, and writes nothing but deadline warnings, each with
the context of the current logger. -/
theorem threadStep_inv (now : Int) (L : ZLogger) (choice : Choice) (c c1 : Chan T)
    (th th1 : Thread T) (recs : List Record) (evs : List (Event T))
    (h : th.step now L choice c = some (th1, c1, recs, evs)) :
    c1.cap = c.cap ∧ c.buf ++ pushed evs = popped evs ++ c1.buf ∧
      (c.buf.length ≤ c.cap → c1.buf.length ≤ c1.cap) ∧
      (∀ r ∈ recs, r.isWarning ∧ r.fields = L.fields) := by
  cases th with
  | push ctx e pc =>
    simp only [Thread.step] at h
    split at h
    · rename_i pc1 c2 recs2 evs2 heq
      simp only [Option.some.injEq, Prod.mk.injEq] at h
      obtain ⟨h1, h2, h3, h4⟩ := h
      subst h1 h2 h3 h4
      rcases PushWithContext_step_cases now L ctx e choice c pc pc1 c2 recs2 evs2 heq with
        ⟨-, -, -, -, hc, hr, he⟩ | ⟨-, -, hlt, -, hc, hr, he⟩
      · subst hc hr he
        simp [pushed, popped, Record.isWarning, ZLogger.WarnAnErr]
      · subst hc hr he
        simp [pushed, popped, Chan.send]
        omega
    · exact absurd h (by simp)
  | pop ctx pc =>
    simp only [Thread.step] at h
    split at h
    · rename_i pc1 c2 recs2 evs2 heq
      simp only [Option.some.injEq, Prod.mk.injEq] at h
      obtain ⟨h1, h2, h3, h4⟩ := h
      subst h1 h2 h3 h4
      rcases PopWithContext_step_cases now L ctx choice c pc pc1 c2 recs2 evs2 heq with
        ⟨-, -, -, -, hc, hr, he⟩ | ⟨v, rest, -, -, hb, -, hc, hr, he⟩
      · subst hc hr he
        simp [pushed, popped, Record.isWarning, ZLogger.WarnAnErr]
      · subst hc hr he
        simp [pushed, popped, hb]
        omega
    · exact absurd h (by simp)

theorem Keeps.same (w w1 : World T) (hq : w1.q = w.q) (hl : w1.Logger = w.Logger)
    (ho : w1.out = w.out) : Keeps w w1 [] := by
  refine ⟨by rw [hq], fun hle => ⟨by simp [pushed, popped, hq], by rw [hq]; exact hle⟩,
    fun f hf => by rw [hl]; exact hf, [], by simp [ho], by simp⟩

theorem Keeps.trans (w w1 w2 : World T) (e1 e2 : List (Event T)) (h1 : Keeps w w1 e1)
    (h2 : Keeps w1 w2 e2) : Keeps w w2 (e1 ++ e2) := by
  obtain ⟨hc1, hb1, hl1, recs1, ho1, hw1⟩ := h1
  obtain ⟨hc2, hb2, hl2, recs2, ho2, hw2⟩ := h2
  refine ⟨by rw [hc2, hc1], fun hle => ?_, fun f hf => hl2 f (hl1 f hf), recs1 ++ recs2, ?_, ?_⟩
  · obtain ⟨hf1, hle1⟩ := hb1 hle
    obtain ⟨hf2, hle2⟩ := hb2 hle1
    refine ⟨?_, hle2⟩
    rw [pushed_append, popped_append, ← List.append_assoc, hf1, List.append_assoc, hf2,
      List.append_assoc]
  · rw [ho2, ho1, List.append_assoc]
  · intro r hr
    rcases List.mem_append.mp hr with hr | hr
    · exact hw1 r hr
    · exact ⟨(hw2 r hr).1, fun f hf => (hw2 r hr).2 f (hl1 f hf)⟩

/-! ## Completed calls, slot by slot -/

theorem pushDone_self (th : Thread T) : pushDone (some th) th = [] := by
  cases th with
  | push ctx e pc => cases pc <;> simp [pushDone, Thread.returned]
  | pop ctx pc => simp [pushDone]

theorem popDone_self (th : Thread T) : popDone (some th) th = [] := by
  cases th with
  | push ctx e pc => simp [popDone, Thread.result]
  | pop ctx pc => cases pc <;> simp [popDone, Thread.result, Thread.returned]

theorem collect_self (f : Option (Thread T) → Thread T → List T)
    (hf : ∀ th, f (some th) th = []) (l : List (Thread T)) : collect f l l = [] := by
  induction l with
  | nil => rfl
  | cons x xs ih => simp [collect, hf, ih]

theorem collect_append_one (f : Option (Thread T) → Thread T → List T)
    (hf : ∀ th, f (some th) th = []) (l : List (Thread T)) (th : Thread T) :
    collect f l (l ++ [th]) = f none th := by
  induction l with
  | nil => simp [collect]
  | cons x xs ih => simp [collect, hf, ih]

theorem collect_set (f : Option (Thread T) → Thread T → List T)
    (hf : ∀ th, f (some th) th = []) (l : List (Thread T)) (i : Nat) (x : Thread T) :
    collect f l (l.set i x) =
      match l[i]? with
      | some old => f (some old) x
      | none => [] := by
  induction l generalizing i with
  | nil => simp [collect]
  | cons y ys ih =>
    cases i with
    | zero => simp [collect, collect_self f hf]
    | succ k => simpa [collect, hf] using ih k

theorem collect_set_same (f : Option (Thread T) → Thread T → List T)
    (l l1 : List (Thread T)) (j : Nat) (b : Thread T)
    (h : ∀ y, l1[j]? = some y → f l[j]? b = f l[j]? y) :
    collect f l (l1.set j b) = collect f l l1 := by
  induction l1 generalizing l j with
  | nil => simp
  | cons y ys ih =>
    cases j with
    | zero =>
      cases l with
      | nil =>
        have := h y (by simp)
        simp only [List.set_cons_zero, collect]
        simp at this
        rw [this]
      | cons o os =>
        have := h y (by simp)
        simp only [List.set_cons_zero, collect]
        simp at this
        rw [this]
    | succ k =>
      cases l with
      | nil =>
        simp only [List.set_cons_succ, collect]
        rw [ih [] k (by intro z hz; simpa using h z (by simpa using hz))]
      | cons o os =>
        simp only [List.set_cons_succ, collect]
        rw [ih os k (by intro z hz; simpa using h z (by simpa using hz))]

/-- A step of a goroutine, at the channel and at the call: the value a completed push
delivered is the value sent, the value a pop returned is the value received. -/
theorem threadStep_done (now : Int) (L : ZLogger) (choice : Choice) (c c1 : Chan T)
    (th th1 : Thread T) (recs : List Record) (evs : List (Event T))
    (h : th.step now L choice c = some (th1, c1, recs, evs)) :
    pushDone (some th) th1 = pushed evs ∧ popDone (some th) th1 = popped evs := by
  cases th with
  | push ctx e pc =>
    simp only [Thread.step] at h
    split at h
    · rename_i pc1 c2 recs2 evs2 heq
      simp only [Option.some.injEq, Prod.mk.injEq] at h
      obtain ⟨h1, h2, h3, h4⟩ := h
      subst h1 h2 h3 h4
      rcases PushWithContext_step_cases now L ctx e choice c pc pc1 c2 recs2 evs2 heq with
        ⟨-, -, -, hp, -, -, he⟩ | ⟨-, hp, -, hp1, -, -, he⟩
      · subst hp he
        simp [pushDone, popDone, Thread.result, pushed, popped]
      · subst hp1 he
        cases pc <;> simp_all [pushDone, popDone, Thread.result, Thread.returned, pushed, popped]
    · exact absurd h (by simp)
  | pop ctx pc =>
    simp only [Thread.step] at h
    split at h
    · rename_i pc1 c2 recs2 evs2 heq
      simp only [Option.some.injEq, Prod.mk.injEq] at h
      obtain ⟨h1, h2, h3, h4⟩ := h
      subst h1 h2 h3 h4
      rcases PopWithContext_step_cases now L ctx choice c pc pc1 c2 recs2 evs2 heq with
        ⟨-, -, -, hp, -, -, he⟩ | ⟨v, rest, -, hp, -, hp1, -, -, he⟩
      · subst hp he
        simp [pushDone, popDone, Thread.result, pushed, popped]
      · subst hp1 he
        rcases hp with hp | hp <;> subst hp <;>
          simp [pushDone, popDone, Thread.result, Thread.returned, pushed, popped]
    · exact absurd h (by simp)

variable [ChanElem T]

/-! ## The constructor -/

/-- What `WithExpiration` returns when it returns. -/
theorem WithExpiration_eq (L l : ZLogger) (n : Int) (q : Timed T) (recs : List Record)
    (h : WithExpiration T L n = some (l, q, recs)) :
    0 ≤ n ∧ l = L.WithInt "size" n ∧ q = { c := { buf := [], cap := n.toNat } } ∧
      recs = [] := by
  unfold WithExpiration make at h
  split at h
  · exact absurd h (by simp)
  · rename_i ch hch
    split at hch
    · exact absurd hch (by simp)
    · rename_i hn
      simp only [Option.some.injEq] at hch
      simp only [Option.some.injEq, Prod.mk.injEq] at h
      obtain ⟨h1, h2, h3⟩ := h
      subst hch
      exact ⟨by omega, h1.symm, h2.symm, h3.symm⟩

/-- The constructor succeeds on every size that `make` accepts. -/
theorem WithExpiration_ok (L : ZLogger) (n : Int) (hn : 0 ≤ n)
    (hmax : n ≤ (ChanElem.maxCap T : Int)) :
    WithExpiration T L n =
      some (L.WithInt "size" n, { c := { buf := [], cap := n.toNat } }, []) := by
  unfold WithExpiration make
  rw [if_neg (by omega)]

/-! ## What every step of the system keeps -/

/-- One step of the system keeps all of it. -/
theorem step_inv (a : Action T) (w w1 : World T) (evs : List (Event T))
    (h : step a w = some (w1, evs)) : Keeps w w1 evs := by
  have triv : ∀ th : Thread T, Keeps w (w.spawn th) [] := fun th =>
    Keeps.same w (w.spawn th) rfl rfl rfl
  cases a with
  | PushWithContext ctx e =>
    simp only [step, Option.some.injEq, Prod.mk.injEq] at h
    obtain ⟨h1, h2⟩ := h
    subst h1 h2
    exact triv _
  | PushWithTimeout t e =>
    simp only [step, Option.some.injEq, Prod.mk.injEq] at h
    obtain ⟨h1, h2⟩ := h
    subst h1 h2
    exact triv _
  | Push e =>
    simp only [step, Option.some.injEq, Prod.mk.injEq] at h
    obtain ⟨h1, h2⟩ := h
    subst h1 h2
    exact triv _
  | PopWithContext ctx =>
    simp only [step, Option.some.injEq, Prod.mk.injEq] at h
    obtain ⟨h1, h2⟩ := h
    subst h1 h2
    exact triv _
  | PopWithTimeout t =>
    simp only [step, Option.some.injEq, Prod.mk.injEq] at h
    obtain ⟨h1, h2⟩ := h
    subst h1 h2
    exact triv _
  | Pop =>
    simp only [step, Option.some.injEq, Prod.mk.injEq] at h
    obtain ⟨h1, h2⟩ := h
    subst h1 h2
    exact triv _
  | rawSend e =>
    simp only [step, Option.some.injEq, Prod.mk.injEq] at h
    obtain ⟨h1, h2⟩ := h
    subst h1 h2
    exact triv _
  | rawRecv =>
    simp only [step, Option.some.injEq, Prod.mk.injEq] at h
    obtain ⟨h1, h2⟩ := h
    subst h1 h2
    exact triv _
  | Len =>
    simp only [step, Option.some.injEq, Prod.mk.injEq] at h
    obtain ⟨h1, h2⟩ := h
    subst h1 h2
    refine ⟨rfl, fun hle => ⟨by simp [pushed, popped], hle⟩, fun f hf => hf, [], by simp,
      by simp⟩
  | Channel =>
    simp only [step, Option.some.injEq, Prod.mk.injEq] at h
    obtain ⟨h1, h2⟩ := h
    subst h1 h2
    exact Keeps.same w w rfl rfl rfl
  | WithExpiration n =>
    simp only [step] at h
    split at h
    · rename_i l q recs heq
      simp only [Option.some.injEq, Prod.mk.injEq] at h
      obtain ⟨h1, h2⟩ := h
      subst h1 h2
      obtain ⟨-, hl, -, hr⟩ := WithExpiration_eq w.Logger l n q recs heq
      subst hl hr
      refine ⟨rfl, fun hle => ⟨by simp [pushed, popped], hle⟩, fun f hf => ?_, [], by simp,
        by simp⟩
      simp [ZLogger.WithInt, hf]
    · exact absurd h (by simp)
  | run i choice =>
    simp only [step] at h
    split at h
    · exact absurd h (by simp)
    · rename_i th hth
      split at h
      · exact absurd h (by simp)
      · rename_i th1 c1 recs evs1 hstep
        simp only [Option.some.injEq, Prod.mk.injEq] at h
        obtain ⟨h1, h2⟩ := h
        subst h1 h2
        obtain ⟨hcap, hfifo, hlen, hrec⟩ :=
          threadStep_inv w.now w.Logger choice w.q.c c1 th th1 recs evs1 hstep
        refine ⟨hcap, fun hle => ⟨hfifo, hlen hle⟩, fun f hf => hf, recs, rfl, fun r hr => ?_⟩
        exact ⟨(hrec r hr).1, fun f hf => by rw [(hrec r hr).2]; exact hf⟩
  | handoff i j =>
    simp only [step] at h
    split at h
    · rename_i hemp
      have hnil : w.q.c.buf = [] := List.isEmpty_iff.mp hemp
      split at h
      · split at h
        · simp only [Option.some.injEq, Prod.mk.injEq] at h
          obtain ⟨h1, h2⟩ := h
          subst h1 h2
          refine ⟨rfl, fun hle => ?_, fun f hf => hf, [], by simp, by simp⟩
          simp [pushed, popped, hnil]
        · exact absurd h (by simp)
      · exact absurd h (by simp)
    · exact absurd h (by simp)
  | tick dt =>
    simp only [step] at h
    split at h
    · simp only [Option.some.injEq, Prod.mk.injEq] at h
      obtain ⟨h1, h2⟩ := h
      subst h1 h2
      exact Keeps.same w _ rfl rfl rfl
    · exact absurd h (by simp)

/-- A schedule keeps what each step keeps. -/
theorem run_inv (as : List (Action T)) (w w1 : World T) (tr : List (Event T))
    (h : run as w = some (w1, tr)) : Keeps w w1 tr := by
  induction as generalizing w tr with
  | nil =>
    simp only [run, Option.some.injEq, Prod.mk.injEq] at h
    obtain ⟨h1, h2⟩ := h
    subst h1 h2
    exact Keeps.same w w rfl rfl rfl
  | cons a rest ih =>
    simp only [run] at h
    split at h
    · exact absurd h (by simp)
    · rename_i wm evs hs
      split at h
      · exact absurd h (by simp)
      · rename_i w2 tr2 hr
        simp only [Option.some.injEq, Prod.mk.injEq] at h
        obtain ⟨h1, h2⟩ := h
        subst h1 h2
        exact Keeps.trans w wm w2 evs tr2 (step_inv a w wm evs hs) (ih wm tr2 hr)

/-! ## Completed calls and the events of the channel -/

/-- One step of the system, at the channel and at the calls: the pushes that completed
are the sends the channel saw, the values the pops returned are the values it gave out. -/
theorem step_completed (a : Action T) (w w1 : World T) (evs : List (Event T))
    (h : step a w = some (w1, evs)) :
    completedPushes w.threads w1.threads = pushed evs ∧
      returnedByPops w.threads w1.threads = popped evs := by
  have same : completedPushes w.threads w.threads = [] ∧
      returnedByPops w.threads w.threads = [] :=
    ⟨collect_self _ pushDone_self _, collect_self _ popDone_self _⟩
  have spawned : ∀ th : Thread T, th.returned = false →
      completedPushes w.threads (w.spawn th).threads = pushed ([] : List (Event T)) ∧
        returnedByPops w.threads (w.spawn th).threads = popped ([] : List (Event T)) := by
    intro th hth
    simp only [completedPushes, returnedByPops, World.spawn, pushed, popped,
      collect_append_one _ pushDone_self, collect_append_one _ popDone_self]
    cases th with
    | push ctx e pc => cases pc <;> simp_all [pushDone, popDone, Thread.result, Thread.returned]
    | pop ctx pc => cases pc <;> simp_all [pushDone, popDone, Thread.result, Thread.returned]
  cases a with
  | PushWithContext ctx e =>
    simp only [step, Option.some.injEq, Prod.mk.injEq] at h
    obtain ⟨h1, h2⟩ := h
    subst h1 h2
    exact spawned _ rfl
  | PushWithTimeout t e =>
    simp only [step, Option.some.injEq, Prod.mk.injEq] at h
    obtain ⟨h1, h2⟩ := h
    subst h1 h2
    exact spawned _ rfl
  | Push e =>
    simp only [step, Option.some.injEq, Prod.mk.injEq] at h
    obtain ⟨h1, h2⟩ := h
    subst h1 h2
    exact spawned _ rfl
  | PopWithContext ctx =>
    simp only [step, Option.some.injEq, Prod.mk.injEq] at h
    obtain ⟨h1, h2⟩ := h
    subst h1 h2
    exact spawned _ rfl
  | PopWithTimeout t =>
    simp only [step, Option.some.injEq, Prod.mk.injEq] at h
    obtain ⟨h1, h2⟩ := h
    subst h1 h2
    exact spawned _ rfl
  | Pop =>
    simp only [step, Option.some.injEq, Prod.mk.injEq] at h
    obtain ⟨h1, h2⟩ := h
    subst h1 h2
    exact spawned _ rfl
  | rawSend e =>
    simp only [step, Option.some.injEq, Prod.mk.injEq] at h
    obtain ⟨h1, h2⟩ := h
    subst h1 h2
    exact spawned _ rfl
  | rawRecv =>
    simp only [step, Option.some.injEq, Prod.mk.injEq] at h
    obtain ⟨h1, h2⟩ := h
    subst h1 h2
    exact spawned _ rfl
  | Len =>
    simp only [step, Option.some.injEq, Prod.mk.injEq] at h
    obtain ⟨h1, h2⟩ := h
    subst h1 h2
    simpa [pushed, popped] using same
  | Channel =>
    simp only [step, Option.some.injEq, Prod.mk.injEq] at h
    obtain ⟨h1, h2⟩ := h
    subst h1 h2
    simpa [pushed, popped] using same
  | WithExpiration n =>
    simp only [step] at h
    split at h
    · simp only [Option.some.injEq, Prod.mk.injEq] at h
      obtain ⟨h1, h2⟩ := h
      subst h1 h2
      simpa [pushed, popped] using same
    · exact absurd h (by simp)
  | tick dt =>
    simp only [step] at h
    split at h
    · simp only [Option.some.injEq, Prod.mk.injEq] at h
      obtain ⟨h1, h2⟩ := h
      subst h1 h2
      simpa [pushed, popped] using same
    · exact absurd h (by simp)
  | run i choice =>
    simp only [step] at h
    split at h
    · exact absurd h (by simp)
    · rename_i th hth
      split at h
      · exact absurd h (by simp)
      · rename_i th1 c1 recs evs1 hstep
        simp only [Option.some.injEq, Prod.mk.injEq] at h
        obtain ⟨h1, h2⟩ := h
        subst h1 h2
        obtain ⟨hp, hr⟩ := threadStep_done w.now w.Logger choice w.q.c c1 th th1 recs evs1 hstep
        simp only [completedPushes, returnedByPops, collect_set _ pushDone_self,
          collect_set _ popDone_self, hth]
        exact ⟨hp, hr⟩
  | handoff i j =>
    simp only [step] at h
    split at h
    · split at h
      · rename_i ctx e pc ctx1 pc1 hi hj
        have hij : i ≠ j := by
          intro hij
          rw [hij, hj] at hi
          exact absurd hi (by simp)
        split at h
        · rename_i hsr
          simp only [Bool.and_eq_true] at hsr
          obtain ⟨hs, hr⟩ := hsr
          simp only [Option.some.injEq, Prod.mk.injEq] at h
          obtain ⟨h1, h2⟩ := h
          subst h1 h2
          constructor
          · simp only [completedPushes]
            rw [collect_set_same pushDone _ _ j _ (by
              intro y hy
              rw [List.getElem?_set_ne hij, hj] at hy
              simp only [Option.some.injEq] at hy
              subst hy
              simp [pushDone])]
            rw [collect_set _ pushDone_self, hi]
            cases pc <;> simp_all [pushDone, Thread.sending, Thread.returned, pushed]
          · simp only [returnedByPops]
            rw [List.set_comm _ _ _ hij]
            rw [collect_set_same popDone _ _ i _ (by
              intro y hy
              rw [List.getElem?_set_ne (Ne.symm hij), hi] at hy
              simp only [Option.some.injEq] at hy
              subst hy
              simp [popDone, Thread.result])]
            rw [collect_set _ popDone_self, hj]
            cases pc1 <;>
              simp_all [popDone, Thread.result, Thread.receiving, Thread.returned, popped]
        · exact absurd h (by simp)
      · exact absurd h (by simp)
    · exact absurd h (by simp)

/-- A schedule observed at the calls and the same schedule observed at the channel. -/
theorem history_eq_run (as : List (Action T)) (w : World T) :
    history as w = (run as w).map (fun r => (r.1, pushed r.2, popped r.2)) := by
  induction as generalizing w with
  | nil => simp [history, run, pushed, popped]
  | cons a rest ih =>
    simp only [history, run]
    cases hs : step a w with
    | none => rfl
    | some r =>
      obtain ⟨w1, evs⟩ := r
      obtain ⟨hp, hr⟩ := step_completed a w w1 evs hs
      simp only [ih w1]
      cases run rest w1 with
      | none => rfl
      | some r2 =>
        obtain ⟨w2, tr⟩ := r2
        simp [hp, hr, pushed_append, popped_append]

/-! ## A goroutine inside a call, step by step -/

/-- A step of a goroutine inside `PushWithContext`: the deadline case of line 34, or the
send through the buffer. -/
theorem step_run_self (w w1 : World T) (evs : List (Event T)) (i : Nat) (choice : Choice)
    (ctx : Ctx) (e : T) (pc : PushPc)
    (hth : w.threads[i]? = some (Thread.push ctx e pc))
    (hstep : step (Action.run i choice) w = some (w1, evs)) :
    (choice = Choice.done ∧ pc = PushPc.select ∧ ctx.Done w.now = true ∧
        w1.threads[i]? = some (Thread.push ctx e PushPc.send) ∧ w1.q = w.q ∧
        w1.out = w.out ++ [w.Logger.WarnAnErr FailedPush] ∧ evs = []) ∨
      (choice = Choice.comm ∧ pc ≠ PushPc.returned ∧ w.q.c.buf.length < w.q.c.cap ∧
        w1.threads[i]? = some (Thread.push ctx e PushPc.returned) ∧
        w1.q.c.buf = w.q.c.buf ++ [e] ∧ w1.q.c.cap = w.q.c.cap ∧ w1.out = w.out ∧
        evs = [Event.sent e]) := by
  have hi := lt_of_getElem? _ _ _ hth
  simp only [step, hth, Thread.step] at hstep
  split at hstep
  · exact absurd hstep (by simp)
  · rename_i th1 c1 recs evs1 hts
    split at hts
    · rename_i pc1 c2 recs2 evs2 heq
      simp only [Option.some.injEq, Prod.mk.injEq] at hts hstep
      obtain ⟨h1, h2, h3, h4⟩ := hts
      obtain ⟨h5, h6⟩ := hstep
      subst h1 h2 h3 h4 h5 h6
      rcases PushWithContext_step_cases w.now w.Logger ctx e choice w.q.c pc pc1 c2 recs2 evs2
        heq with ⟨hc, hp, hd, hp1, hc1, hr, he⟩ | ⟨hc, hp, hlt, hp1, hc1, hr, he⟩
      · subst hc hp hp1 hc1 hr he
        exact Or.inl ⟨rfl, rfl, hd, by simp [hi], rfl, rfl, rfl⟩
      · subst hc hp1 hc1 hr he
        exact Or.inr ⟨rfl, hp, hlt, by simp [hi], rfl, rfl, by simp, rfl⟩
    · exact absurd hts (by simp)

/-- An action that is neither a step of goroutine `i` nor a hand-over of its value leaves
it where it stands, with its value. -/
theorem step_keeps_thread (w w1 : World T) (a : Action T) (evs : List (Event T)) (i : Nat)
    (ctx : Ctx) (e : T) (pc : PushPc)
    (hth : w.threads[i]? = some (Thread.push ctx e pc))
    (hstep : step a w = some (w1, evs))
    (hrun : ∀ c, a ≠ Action.run i c) (hhand : ∀ j, a ≠ Action.handoff i j) :
    w1.threads[i]? = some (Thread.push ctx e pc) := by
  have hi := lt_of_getElem? _ _ _ hth
  have spawned : ∀ th : Thread T, (w.spawn th).threads[i]? = some (Thread.push ctx e pc) := by
    intro th
    simp only [World.spawn]
    rw [List.getElem?_append_left hi]
    exact hth
  cases a with
  | PushWithContext ctx e =>
    simp only [step, Option.some.injEq, Prod.mk.injEq] at hstep
    obtain ⟨h1, -⟩ := hstep
    subst h1
    exact spawned _
  | PushWithTimeout t e =>
    simp only [step, Option.some.injEq, Prod.mk.injEq] at hstep
    obtain ⟨h1, -⟩ := hstep
    subst h1
    exact spawned _
  | Push e =>
    simp only [step, Option.some.injEq, Prod.mk.injEq] at hstep
    obtain ⟨h1, -⟩ := hstep
    subst h1
    exact spawned _
  | PopWithContext ctx =>
    simp only [step, Option.some.injEq, Prod.mk.injEq] at hstep
    obtain ⟨h1, -⟩ := hstep
    subst h1
    exact spawned _
  | PopWithTimeout t =>
    simp only [step, Option.some.injEq, Prod.mk.injEq] at hstep
    obtain ⟨h1, -⟩ := hstep
    subst h1
    exact spawned _
  | Pop =>
    simp only [step, Option.some.injEq, Prod.mk.injEq] at hstep
    obtain ⟨h1, -⟩ := hstep
    subst h1
    exact spawned _
  | rawSend e =>
    simp only [step, Option.some.injEq, Prod.mk.injEq] at hstep
    obtain ⟨h1, -⟩ := hstep
    subst h1
    exact spawned _
  | rawRecv =>
    simp only [step, Option.some.injEq, Prod.mk.injEq] at hstep
    obtain ⟨h1, -⟩ := hstep
    subst h1
    exact spawned _
  | Len =>
    simp only [step, Option.some.injEq, Prod.mk.injEq] at hstep
    obtain ⟨h1, -⟩ := hstep
    subst h1
    exact hth
  | Channel =>
    simp only [step, Option.some.injEq, Prod.mk.injEq] at hstep
    obtain ⟨h1, -⟩ := hstep
    subst h1
    exact hth
  | WithExpiration n =>
    simp only [step] at hstep
    split at hstep
    · simp only [Option.some.injEq, Prod.mk.injEq] at hstep
      obtain ⟨h1, -⟩ := hstep
      subst h1
      exact hth
    · exact absurd hstep (by simp)
  | tick dt =>
    simp only [step] at hstep
    split at hstep
    · simp only [Option.some.injEq, Prod.mk.injEq] at hstep
      obtain ⟨h1, -⟩ := hstep
      subst h1
      exact hth
    · exact absurd hstep (by simp)
  | run k choice =>
    have hk : k ≠ i := fun hk => hrun choice (by rw [hk])
    simp only [step] at hstep
    split at hstep
    · exact absurd hstep (by simp)
    · split at hstep
      · exact absurd hstep (by simp)
      · simp only [Option.some.injEq, Prod.mk.injEq] at hstep
        obtain ⟨h1, -⟩ := hstep
        subst h1
        simp only
        rw [List.getElem?_set_ne hk]
        exact hth
  | handoff k j =>
    have hk : k ≠ i := fun hk => hhand j (by rw [hk])
    simp only [step] at hstep
    split at hstep
    · split at hstep
      · rename_i ctx2 e2 pc2 ctx1 pc1 hk2 hj2
        have hj : j ≠ i := by
          intro hji
          rw [hji, hth] at hj2
          exact absurd hj2 (by simp)
        split at hstep
        · simp only [Option.some.injEq, Prod.mk.injEq] at hstep
          obtain ⟨h1, -⟩ := hstep
          subst h1
          simp only
          rw [List.getElem?_set_ne hj, List.getElem?_set_ne hk]
          exact hth
        · exact absurd hstep (by simp)
      · exact absurd hstep (by simp)
    · exact absurd hstep (by simp)

/-- A hand-over of the value of goroutine `i`: the buffer is empty and stays so, the
receiver returns the value. -/
theorem step_handoff_self (w w1 : World T) (evs : List (Event T)) (i j : Nat)
    (ctx : Ctx) (e : T) (pc : PushPc)
    (hth : w.threads[i]? = some (Thread.push ctx e pc))
    (hstep : step (Action.handoff i j) w = some (w1, evs)) :
    ∃ ctx1 pc1, w.q.c.buf = [] ∧ w.threads[j]? = some (Thread.pop ctx1 pc1) ∧
      w1.threads[i]? = some (Thread.push ctx e PushPc.returned) ∧
      w1.threads[j]? = some (Thread.pop ctx1 (PopPc.returned e)) ∧ w1.q = w.q ∧
      w1.out = w.out ∧ evs = [Event.sent e, Event.received e] := by
  have hi := lt_of_getElem? _ _ _ hth
  simp only [step, hth] at hstep
  split at hstep
  · rename_i hemp
    split at hstep
    · rename_i ctx2 e2 pc2 ctx1 pc1 hk2 hj2
      have hj := lt_of_getElem? _ _ _ hj2
      have hji : j ≠ i := by
        intro hji
        rw [hji, hth] at hj2
        exact absurd hj2 (by simp)
      simp only [Option.some.injEq, Thread.push.injEq] at hk2
      obtain ⟨h1, h2, h3⟩ := hk2
      subst h1 h2 h3
      split at hstep
      · simp only [Option.some.injEq, Prod.mk.injEq] at hstep
        obtain ⟨h1, h2⟩ := hstep
        subst h1 h2
        refine ⟨ctx1, pc1, List.isEmpty_iff.mp hemp, hj2, ?_, ?_, rfl, rfl, rfl⟩
        · simp only
          rw [List.getElem?_set_ne hji, List.getElem?_set_self hi]
        · simp only
          rw [List.getElem?_set_self (by simpa using hj)]
      · exact absurd hstep (by simp)
    · exact absurd hstep (by simp)
  · exact absurd hstep (by simp)

/-- A hand-over happens only where the buffer is empty, a sender and a receiver waiting. -/
theorem handoffReady_of_step (w : World T) (i j : Nat) (r : World T × List (Event T))
    (h : step (Action.handoff i j) w = some r) : w.handoffReady = true := by
  simp only [step] at h
  split at h
  · rename_i hemp
    split at h
    · rename_i ctx e pc ctx1 pc1 hi hj
      split at h
      · rename_i hsr
        simp only [Bool.and_eq_true] at hsr
        simp only [World.handoffReady, Bool.and_eq_true, List.any_eq_true]
        exact ⟨⟨hemp, _, List.getElem?_mem hi, hsr.1⟩, _, List.getElem?_mem hj, hsr.2⟩
      · exact absurd h (by simp)
    · exact absurd h (by simp)
  · exact absurd h (by simp)

/-- With a free slot and the deadline fired both cases of the `select` are ready; the two
ways through the call end in the same state but for the warning. -/
theorem finish_branches (w : World T) (i : Nat) (ctx : Ctx) (e : T)
    (hth : w.threads[i]? = some (Thread.push ctx e PushPc.select))
    (hfree : w.q.c.buf.length < w.q.c.cap) (hd : ctx.Done w.now = true) :
    finish Choice.comm i w =
        ({ w with q := { c := w.q.c.send e },
                  threads := w.threads.set i (Thread.push ctx e PushPc.returned) },
          [Event.sent e]) ∧
      finish Choice.done i w =
        ({ w with q := { c := w.q.c.send e },
                  out := w.out ++ [w.Logger.WarnAnErr FailedPush],
                  threads := w.threads.set i (Thread.push ctx e PushPc.returned) },
          [Event.sent e]) := by
  have hi := lt_of_getElem? _ _ _ hth
  constructor
  · simp [finish, step, hth, Thread.step, PushWithContext_step, Chan.canSend, hfree, hi]
  · simp [finish, step, hth, Thread.step, PushWithContext_step, Chan.canSend, hfree, hi, hd]

/-- A pop on an empty buffer: parked while the deadline has not fired; once it has, the
only case that proceeds is the deadline case, which writes one warning tagged
"blocked on Pop" and moves to the plain receive; there nothing proceeds while the buffer
is empty, however late it gets. -/
theorem pop_blocked (w : World T) (i : Nat) (ctx : Ctx) (c : Choice) (later : Int)
    (hth : w.threads[i]? = some (Thread.pop ctx PopPc.select)) (hempty : w.q.c.buf = []) :
    (ctx.Done w.now = false → step (Action.run i c) w = none) ∧
    (ctx.Done w.now = true →
      step (Action.run i Choice.comm) w = none ∧
      step (Action.run i Choice.done) w =
        some ({ w with out := w.out ++ [w.Logger.WarnAnErr FailedPop],
                       threads := w.threads.set i (Thread.pop ctx PopPc.recv) }, [])) ∧
    step (Action.run i c)
        { w with now := later, out := w.out ++ [w.Logger.WarnAnErr FailedPop],
                 threads := w.threads.set i (Thread.pop ctx PopPc.recv) } = none := by
  have hi := lt_of_getElem? _ _ _ hth
  refine ⟨?_, ?_, ?_⟩
  · intro hd
    cases c <;> simp [step, hth, Thread.step, PopWithContext_step, Chan.recv, hempty, hd]
  · intro hd
    constructor
    · simp [step, hth, Thread.step, PopWithContext_step, Chan.recv, hempty]
    · simp [step, hth, Thread.step, PopWithContext_step, hd]
  · cases c <;> simp [step, hi, Thread.step, PopWithContext_step, Chan.recv, hempty]

/-! ## A call that nobody interferes with -/

/-- A `Push` on a queue with a free slot returns at once: the value is the youngest of
the buffer, nothing is written. -/
theorem call_Push (pref : Choice) (e : T) (w : World T)
    (h : w.q.c.buf.length < w.q.c.cap) :
    call pref (Action.Push e) w =
      some ({ w with q := { c := w.q.c.send e },
                     threads := w.threads ++
                       [Thread.push (WithTimeout w.now Background defaultChannelTimeout) e
                         PushPc.returned] }, [Event.sent e]) := by
  cases pref <;>
    simp [call, step, finish, World.spawn, Push, PushWithContext, Thread.step,
      PushWithContext_step, Chan.canSend, h, default_not_done, Choice.other,
      set_length_append]

/-- A `Pop` on a queue that holds a value returns the oldest one at once, nothing is
written. -/
theorem call_Pop (pref : Choice) (w : World T) (v : T) (rest : List T)
    (h : w.q.c.buf = v :: rest) :
    call pref Action.Pop w =
      some ({ w with q := { c := { w.q.c with buf := rest } },
                     threads := w.threads ++
                       [Thread.pop (WithTimeout w.now Background defaultChannelTimeout)
                         (PopPc.returned v)] }, [Event.received v]) := by
  cases pref <;>
    simp [call, step, finish, World.spawn, Pop, PopWithContext, Thread.step,
      PopWithContext_step, Chan.recv, h, default_not_done, Choice.other,
      set_length_append]

/-- A plain send on the raw channel of a queue with a free slot proceeds at once. -/
theorem call_rawSend (pref : Choice) (e : T) (w : World T)
    (h : w.q.c.buf.length < w.q.c.cap) :
    call pref (Action.rawSend e) w =
      some ({ w with q := { c := w.q.c.send e },
                     threads := w.threads ++ [Thread.push Background e PushPc.returned] },
            [Event.sent e]) := by
  cases pref <;>
    simp [call, step, finish, World.spawn, Thread.step,
      PushWithContext_step, Chan.canSend, h, Choice.other, set_length_append]

/-- A plain receive on the raw channel of a queue that holds a value proceeds at once. -/
theorem call_rawRecv (pref : Choice) (w : World T) (v : T) (rest : List T)
    (h : w.q.c.buf = v :: rest) :
    call pref Action.rawRecv w =
      some ({ w with q := { c := { w.q.c with buf := rest } },
                     threads := w.threads ++ [Thread.pop Background (PopPc.returned v)] },
            [Event.received v]) := by
  cases pref <;>
    simp [call, step, finish, World.spawn, Thread.step,
      PopWithContext_step, Chan.recv, h, Choice.other, set_length_append]

/-- A push whose deadline has not fired, on a queue with a free slot, stores its value at
once and writes nothing. -/
theorem call_PushWithContext_silent (pref : Choice) (ctx : Ctx) (e : T) (w : World T)
    (h : w.q.c.buf.length < w.q.c.cap) (hd : ctx.Done w.now = false) :
    call pref (Action.PushWithContext ctx e) w =
      some ({ w with q := { c := w.q.c.send e },
                     threads := w.threads ++ [Thread.push ctx e PushPc.returned] },
            [Event.sent e]) := by
  cases pref <;>
    simp [call, step, finish, World.spawn, PushWithContext, Thread.step,
      PushWithContext_step, Chan.canSend, h, hd, Choice.other, set_length_append]

/-- A pop whose deadline has not fired, on a queue that holds a value, returns the oldest
value at once and writes nothing. -/
theorem call_PopWithContext_silent (pref : Choice) (ctx : Ctx) (w : World T) (v : T)
    (rest : List T) (h : w.q.c.buf = v :: rest) (hd : ctx.Done w.now = false) :
    call pref (Action.PopWithContext ctx) w =
      some ({ w with q := { c := { w.q.c with buf := rest } },
                     threads := w.threads ++ [Thread.pop ctx (PopPc.returned v)] },
            [Event.received v]) := by
  cases pref <;>
    simp [call, step, finish, World.spawn, PopWithContext, Thread.step,
      PopWithContext_step, Chan.recv, h, hd, Choice.other, set_length_append]

theorem callSeq_append (p1 p2 : List (Choice × Action T)) (w : World T) :
    callSeq (p1 ++ p2) w =
      match callSeq p1 w with
      | none => none
      | some (w1, t1) =>
        match callSeq p2 w1 with
        | none => none
        | some (w2, t2) => some (w2, t1 ++ t2) := by
  induction p1 generalizing w with
  | nil =>
    simp only [List.nil_append, callSeq]
    cases callSeq p2 w with
    | none => rfl
    | some r => simp
  | cons x xs ih =>
    obtain ⟨pref, a⟩ := x
    show callSeq ((pref, a) :: (xs ++ p2)) w = _
    simp only [callSeq, ih]
    cases call pref a w with
    | none => rfl
    | some r =>
      obtain ⟨w1, e1⟩ := r
      simp only
      cases callSeq xs w1 with
      | none => rfl
      | some r2 =>
        obtain ⟨w2, t2⟩ := r2
        simp only
        cases callSeq p2 w2 with
        | none => rfl
        | some r3 => simp

/-- Pushes that fit into the free slots all return at once. -/
theorem callSeq_pushes (pushes : List (Choice × T)) (w : World T)
    (h : w.q.c.buf.length + pushes.length ≤ w.q.c.cap) :
    ∃ w1 tr, callSeq (pushes.map (fun p => (p.1, Action.Push p.2))) w = some (w1, tr) ∧
      Returned w w1 (w.q.c.buf ++ pushes.map Prod.snd) pushes.length := by
  induction pushes generalizing w with
  | nil =>
    exact ⟨w, [], rfl, by simp, rfl, rfl, rfl, rfl, rfl, fun h => h⟩
  | cons x xs ih =>
    obtain ⟨pref, e⟩ := x
    simp only [List.length_cons] at h
    have hlt : w.q.c.buf.length < w.q.c.cap := by omega
    have hcall := call_Push pref e w hlt
    obtain ⟨w1, tr, hrun, hb, hc, hn, ho, hl, ht, hr⟩ := ih
      { w with q := { c := w.q.c.send e },
               threads := w.threads ++
                 [Thread.push (WithTimeout w.now Background defaultChannelTimeout) e
                   PushPc.returned] }
      (by simp [Chan.send]; omega)
    refine ⟨w1, [Event.sent e] ++ tr, ?_, ?_, hc, hn, ho, hl, ?_, ?_⟩
    · simp only [List.map_cons, callSeq, hcall, hrun]
    · simp [hb, Chan.send]
    · simp only [List.length_append, List.length_cons, List.length_nil] at ht
      simp only [List.length_cons]
      omega
    · intro hall
      apply hr
      simp [List.all_append, hall, Thread.returned]

/-- Pops of values that are in the buffer all return at once. -/
theorem callSeq_pops (pops : List Choice) (w : World T)
    (h : pops.length ≤ w.q.c.buf.length) :
    ∃ w1 tr, callSeq (pops.map (fun c => (c, (Action.Pop : Action T)))) w = some (w1, tr) ∧
      Returned w w1 (w.q.c.buf.drop pops.length) pops.length := by
  induction pops generalizing w with
  | nil =>
    exact ⟨w, [], rfl, by simp, rfl, rfl, rfl, rfl, rfl, fun h => h⟩
  | cons pref xs ih =>
    simp only [List.length_cons] at h
    cases hbuf : w.q.c.buf with
    | nil => rw [hbuf] at h; simp at h
    | cons v rest =>
      have hcall := call_Pop pref w v rest hbuf
      rw [hbuf] at h
      simp only [List.length_cons] at h
      obtain ⟨w1, tr, hrun, hb, hc, hn, ho, hl, ht, hr⟩ := ih
        { w with q := { c := { w.q.c with buf := rest } },
                 threads := w.threads ++
                   [Thread.pop (WithTimeout w.now Background defaultChannelTimeout)
                     (PopPc.returned v)] }
        (by simp; omega)
      refine ⟨w1, [Event.received v] ++ tr, ?_, ?_, hc, hn, ho, hl, ?_, ?_⟩
      · simp only [List.map_cons, callSeq, hcall, hrun]
      · simp [hb]
      · simp only [List.length_append, List.length_cons, List.length_nil] at ht
        simp only [List.length_cons]
        omega
      · intro hall
        apply hr
        simp [List.all_append, hall, Thread.returned]

/-! ## The claims -/

/-- C1: FIFO order. On the queue made by `WithExpiration N`, along every schedule of
pushes and pops (the three push variants, the three pop variants, the raw channel), read
off the goroutines as they return: the k-th value returned by a pop is the value of the
k-th push that completed, for every k; and the values of the completed pushes are exactly
the values returned by the pops followed by the buffer, so no element is reordered,
duplicated or lost. -/
theorem C1_fifo_order (N : Int) (L L1 : ZLogger) (q : Timed T) (recs : List Record)
    (now : Int) (out : List Record) (as : List (Action T)) (w : World T) (ps rs : List T)
    (hq : WithExpiration T L N = some (L1, q, recs))
    (hrun : history as (World.fresh now L1 (out ++ recs) q) = some (w, ps, rs)) :
    (∀ (k : Nat) (v : T), rs[k]? = some v → ps[k]? = some v) ∧ ps = rs ++ w.q.c.buf := by
  obtain ⟨-, -, hq1, -⟩ := WithExpiration_eq L L1 N q recs hq
  rw [history_eq_run] at hrun
  cases hr : run as (World.fresh now L1 (out ++ recs) q) with
  | none => rw [hr] at hrun; exact absurd hrun (by simp)
  | some r =>
    obtain ⟨w1, tr⟩ := r
    rw [hr] at hrun
    simp only [Option.map_some', Option.some.injEq, Prod.mk.injEq] at hrun
    obtain ⟨h1, h2, h3⟩ := hrun
    subst h1 h2 h3
    obtain ⟨-, hb, -, -⟩ := run_inv as _ w1 tr hr
    have hfifo := (hb (by subst hq1; simp [World.fresh])).1
    have hp : pushed tr = popped tr ++ w1.q.c.buf := by
      subst hq1
      simpa [World.fresh] using hfifo
    refine ⟨fun k v hk => ?_, hp⟩
    rw [hp]
    have hlt : k < (popped tr).length := by
      by_contra hge
      rw [List.getElem?_eq_none (by omega)] at hk
      exact absurd hk (by simp)
    rw [List.getElem?_append_left hlt]
    exact hk

/-- The statement C1 at a schedule in which two pushes are stored, the second one first,
and one pop follows. -/
theorem C1_fifo_order_witness :
    WithExpiration Nat { fields := [] } 2 =
        some ({ fields := [("size", 2)] }, { c := { buf := [], cap := 2 } }, []) ∧
      history demoSchedule (World.fresh 0 { fields := [("size", 2)] } ([] ++ [])
          { c := { buf := [], cap := 2 } }) = some (demoWorld, [20, 10], [20]) ∧
      ((∀ (k : Nat) (v : Nat), [20][k]? = some v → [20, 10][k]? = some v) ∧
        [20, 10] = [20] ++ demoWorld.q.c.buf) :=
  ⟨rfl, rfl, C1_fifo_order 2 { fields := [] } { fields := [("size", 2)] }
    { c := { buf := [], cap := 2 } } [] 0 [] demoSchedule demoWorld [20, 10] [20] rfl rfl⟩

/-- C2 as stated fails on a queue of capacity 0: a `Pop` waits, `PushWithContext` of 7
completes by handing the value over, and the buffer it leaves is empty, not the old
(empty) buffer with 7 appended; `Len()` is 0. The value is not lost: the pop returned it. -/
theorem C2_counterexample :
    (WithExpiration Nat { fields := [] } 0).map (fun r => r.2.1) = some fresh0.q ∧
    (run handoffSchedule fresh0).map
        (fun r => (r.1.threads[1]?, r.1.q.c.buf, Len r.1.q,
          (r.1.threads[0]?).bind Thread.result)) =
      some (some (Thread.push Background 7 PushPc.returned), [], 0, some 7) ∧
    ([] : List Nat) ≠ fresh0.q.c.buf ++ [7] := by
  refine ⟨rfl, rfl, by decide⟩

/-- C2, amended: the deadline never decides whether a push happens. A goroutine inside
`PushWithContext(ctx, e)` keeps its place and its value under every action of the others;
its deadline case writes one warning and leaves the queue as it is; and it returns only by
delivering `e` once: by a send that leaves the buffer equal to the old buffer with `e`
appended at the tail, or, when the buffer is empty and a receiver is waiting (the only way
on a queue of capacity 0), by handing `e` to that receiver, the buffer staying empty. No
step is an error. With both cases ready the two ways through the call differ only in the
log. -/
theorem C2_push_always_delivers (w w1 : World T) (a : Action T) (evs : List (Event T))
    (i : Nat) (ctx : Ctx) (e : T) (pc : PushPc)
    (hth : w.threads[i]? = some (Thread.push ctx e pc)) (hpc : pc ≠ PushPc.returned)
    (hstep : step a w = some (w1, evs)) :
    (w1.threads[i]? = some (Thread.push ctx e pc) ∨
      (a = Action.run i Choice.done ∧ pc = PushPc.select ∧ ctx.Done w.now = true ∧
        w1.threads[i]? = some (Thread.push ctx e PushPc.send) ∧ w1.q = w.q ∧
        w1.out = w.out ++ [w.Logger.WarnAnErr FailedPush] ∧ evs = []) ∨
      (a = Action.run i Choice.comm ∧ w.q.c.buf.length < w.q.c.cap ∧
        w1.threads[i]? = some (Thread.push ctx e PushPc.returned) ∧
        w1.q.c.buf = w.q.c.buf ++ [e] ∧ w1.q.c.cap = w.q.c.cap ∧ w1.out = w.out ∧
        evs = [Event.sent e]) ∨
      (∃ j ctx1 pc1, a = Action.handoff i j ∧ w.q.c.buf = [] ∧
        w.threads[j]? = some (Thread.pop ctx1 pc1) ∧
        w1.threads[i]? = some (Thread.push ctx e PushPc.returned) ∧
        w1.threads[j]? = some (Thread.pop ctx1 (PopPc.returned e)) ∧ w1.q = w.q ∧
        w1.out = w.out ∧ evs = [Event.sent e, Event.received e])) ∧
    (pc = PushPc.select → w.q.c.buf.length < w.q.c.cap → ctx.Done w.now = true →
      (finish Choice.done i w).1 =
          { (finish Choice.comm i w).1 with out := w.out ++ [w.Logger.WarnAnErr FailedPush] } ∧
        (finish Choice.comm i w).1.out = w.out ∧
        (finish Choice.done i w).2 = (finish Choice.comm i w).2) := by
  constructor
  · by_cases hr : ∃ c, a = Action.run i c
    · obtain ⟨c, rfl⟩ := hr
      rcases step_run_self w w1 evs i c ctx e pc hth hstep with
        ⟨hc, h1, h2, h3, h4, h5, h6⟩ | ⟨hc, -, h2, h3, h4, h5, h6, h7⟩
      · subst hc
        exact Or.inr (Or.inl ⟨rfl, h1, h2, h3, h4, h5, h6⟩)
      · subst hc
        exact Or.inr (Or.inr (Or.inl ⟨rfl, h2, h3, h4, h5, h6, h7⟩))
    · by_cases hh : ∃ j, a = Action.handoff i j
      · obtain ⟨j, rfl⟩ := hh
        obtain ⟨ctx1, pc1, h1, h2, h3, h4, h5, h6, h7⟩ :=
          step_handoff_self w w1 evs i j ctx e pc hth hstep
        exact Or.inr (Or.inr (Or.inr ⟨j, ctx1, pc1, rfl, h1, h2, h3, h4, h5, h6, h7⟩))
      · exact Or.inl (step_keeps_thread w w1 a evs i ctx e pc hth hstep
          (fun c h => hr ⟨c, h⟩) (fun j h => hh ⟨j, h⟩))
  · intro hsel hfree hd
    subst hsel
    obtain ⟨h1, h2⟩ := finish_branches w i ctx e hth hfree hd
    rw [h1, h2]
    exact ⟨rfl, rfl, rfl⟩

/-- The statement C2 (amended) at a push that arrives at a queue of capacity 1 with its
deadline fired and takes the send case. -/
theorem C2_push_always_delivers_witness :
    arrived1.threads[0]? = some (Thread.push { doneAt := some 0 } 7 PushPc.select) ∧
      PushPc.select ≠ PushPc.returned ∧
      step (Action.run 0 Choice.comm) arrived1 = some (stored1, [Event.sent 7]) ∧
      ((stored1.threads[0]? = some (Thread.push { doneAt := some 0 } 7 PushPc.select) ∨
        ((Action.run 0 Choice.comm : Action Nat) = Action.run 0 Choice.done ∧
          PushPc.select = PushPc.select ∧ Ctx.Done { doneAt := some 0 } arrived1.now = true ∧
          stored1.threads[0]? = some (Thread.push { doneAt := some 0 } 7 PushPc.send) ∧
          stored1.q = arrived1.q ∧
          stored1.out = arrived1.out ++ [arrived1.Logger.WarnAnErr FailedPush] ∧
          [Event.sent 7] = []) ∨
        ((Action.run 0 Choice.comm : Action Nat) = Action.run 0 Choice.comm ∧
          arrived1.q.c.buf.length < arrived1.q.c.cap ∧
          stored1.threads[0]? = some (Thread.push { doneAt := some 0 } 7 PushPc.returned) ∧
          stored1.q.c.buf = arrived1.q.c.buf ++ [7] ∧ stored1.q.c.cap = arrived1.q.c.cap ∧
          stored1.out = arrived1.out ∧ [Event.sent 7] = [Event.sent 7]) ∨
        (∃ j ctx1 pc1, (Action.run 0 Choice.comm : Action Nat) = Action.handoff 0 j ∧
          arrived1.q.c.buf = [] ∧ arrived1.threads[j]? = some (Thread.pop ctx1 pc1) ∧
          stored1.threads[0]? = some (Thread.push { doneAt := some 0 } 7 PushPc.returned) ∧
          stored1.threads[j]? = some (Thread.pop ctx1 (PopPc.returned 7)) ∧
          stored1.q = arrived1.q ∧ stored1.out = arrived1.out ∧
          [Event.sent 7] = [Event.sent 7, Event.received 7])) ∧
      (PushPc.select = PushPc.select → arrived1.q.c.buf.length < arrived1.q.c.cap →
        Ctx.Done { doneAt := some 0 } arrived1.now = true →
        (finish Choice.done 0 arrived1).1 =
            { (finish Choice.comm 0 arrived1).1 with
              out := arrived1.out ++ [arrived1.Logger.WarnAnErr FailedPush] } ∧
          (finish Choice.comm 0 arrived1).1.out = arrived1.out ∧
          (finish Choice.done 0 arrived1).2 = (finish Choice.comm 0 arrived1).2)) :=
  ⟨rfl, by decide, rfl,
    C2_push_always_delivers arrived1 stored1 (Action.run 0 Choice.comm) [Event.sent 7] 0
      { doneAt := some 0 } 7 PushPc.select rfl (by decide) rfl⟩

/-- C3: capacity invariant. In every state reachable from `WithExpiration N` by any
schedule of calls, `0 <= Len() <= N`, and the capacity of the channel is still `N`. -/
theorem C3_capacity_invariant (N : Int) (L L1 : ZLogger) (q : Timed T) (recs : List Record)
    (now : Int) (out : List Record) (as : List (Action T)) (w : World T)
    (tr : List (Event T))
    (hq : WithExpiration T L N = some (L1, q, recs))
    (hrun : run as (World.fresh now L1 (out ++ recs) q) = some (w, tr)) :
    0 ≤ Len w.q ∧ Len w.q ≤ N ∧ (w.q.c.cap : Int) = N := by
  obtain ⟨hN, -, hq1, -⟩ := WithExpiration_eq L L1 N q recs hq
  obtain ⟨hc, hb, -, -⟩ := run_inv as _ w tr hrun
  have hle := (hb (by subst hq1; simp [World.fresh])).2
  subst hq1
  simp only [World.fresh] at hc hle
  rw [hc] at hle
  simp only [Len, Chan.len]
  refine ⟨by omega, by omega, by rw [hc]; omega⟩

/-- The statement C3 at a schedule that fills a queue of capacity 1 and parks a second
push. -/
theorem C3_capacity_invariant_witness :
    run fullSchedule (World.fresh 0 { fields := [("size", 1)] } ([] ++ [])
        { c := { buf := [], cap := 1 } }) = some (fullWorld, [Event.sent 10, Event.len 1]) ∧
      0 ≤ Len fullWorld.q ∧ Len fullWorld.q ≤ 1 ∧ (fullWorld.q.c.cap : Int) = 1 :=
  ⟨rfl, C3_capacity_invariant 1 { fields := [] } { fields := [("size", 1)] }
    { c := { buf := [], cap := 1 } } [] 0 [] fullSchedule fullWorld
    [Event.sent 10, Event.len 1] rfl rfl⟩

/-- C4: `Len` counts the buffered elements. After `WithExpiration N`, `K <= N` pushes and
then `J <= K` pops, made one after the other, every call has returned at once (no
goroutine is parked, the clock has not moved, nothing was written) and `Len() = K - J`;
`Len() = 0` right after construction. The buffer holds the pushed values but the first
`J`. -/
theorem C4_len_counts (N : Int) (L L1 : ZLogger) (q : Timed T) (recs : List Record)
    (now : Int) (out : List Record) (pushes : List (Choice × T)) (pops : List Choice)
    (hq : WithExpiration T L N = some (L1, q, recs))
    (hK : (pushes.length : Int) ≤ N) (hJ : pops.length ≤ pushes.length) :
    Len q = 0 ∧
      ∃ w tr, callSeq (pushesThenPops pushes pops) (World.fresh now L1 (out ++ recs) q) =
          some (w, tr) ∧
        w.threads.length = pushes.length + pops.length ∧
        w.threads.all Thread.returned = true ∧ w.now = now ∧ w.out = out ∧
        w.q.c.buf = (pushes.map Prod.snd).drop pops.length ∧
        Len w.q = (pushes.length : Int) - pops.length := by
  obtain ⟨hN, -, hq1, hr⟩ := WithExpiration_eq L L1 N q recs hq
  subst hq1 hr
  refine ⟨rfl, ?_⟩
  obtain ⟨w1, t1, hrun1, hb1, hc1, hn1, ho1, -, ht1, hr1⟩ :=
    callSeq_pushes pushes (World.fresh now L1 (out ++ []) { c := { buf := [], cap := N.toNat } })
      (by simp [World.fresh]; omega)
  obtain ⟨w2, t2, hrun2, hb2, hc2, hn2, ho2, -, ht2, hr2⟩ :=
    @callSeq_pops T _ pops w1 (by rw [hb1]; simp [World.fresh]; omega)
  refine ⟨w2, t1 ++ t2, ?_, ?_, ?_, ?_, ?_, ?_, ?_⟩
  · simp only [pushesThenPops, callSeq_append, List.append_nil] at hrun1 ⊢
    simp only [hrun1, hrun2]
  · rw [ht2, ht1]; simp [World.fresh]
  · exact hr2 (hr1 (by simp [World.fresh]))
  · rw [hn2, hn1]; rfl
  · rw [ho2, ho1]; simp [World.fresh]
  · rw [hb2, hb1]; simp [World.fresh]
  · simp only [Len, Chan.len, hb2, hb1, World.fresh, List.nil_append, List.length_drop,
      List.length_map]
    omega

/-- The statement C4 at the program of `TestLen`: capacity 3, two pushes, one pop. -/
theorem C4_len_counts_witness :
    Len ({ c := { buf := [], cap := 3 } } : Timed Bool) = 0 ∧
      ∃ w tr, callSeq (pushesThenPops [(Choice.comm, true), (Choice.done, false)] [Choice.comm])
          (World.fresh 0 { fields := [("size", 3)] } ([] ++ []) { c := { buf := [], cap := 3 } }) =
          some (w, tr) ∧
        w.threads.length = 2 + 1 ∧
        w.threads.all Thread.returned = true ∧ w.now = 0 ∧ w.out = [] ∧
        w.q.c.buf = ([(Choice.comm, true), (Choice.done, false)].map Prod.snd).drop 1 ∧
        Len w.q = ((2 : Nat) : Int) - (1 : Nat) :=
  C4_len_counts 3 { fields := [] } _ _ [] 0 [] [(Choice.comm, true), (Choice.done, false)]
    [Choice.comm] rfl (by decide) (by decide)

/-- C5, at the failing input: on a fresh queue of capacity 1 the call
`PushWithTimeout(0, 7)` (and `PushWithContext` with a context that is already done) has
both cases of its `select` ready; when the deadline case is taken the value is stored at
once, the call returns, and one "blocked on Push" warning has been written although the
push never waited. When the send case is taken nothing is written. -/
theorem C5_free_push_warns :
    (call Choice.done (Action.PushWithTimeout 0 7) fresh1).map
        (fun r => (r.1.q.c.buf, r.1.threads.all Thread.returned, r.1.now, r.1.out)) =
      some ([7], true, 0,
        [{ level := Level.warn, fields := [("size", 1)], failed := "blocked on Push" }]) ∧
    (call Choice.done (Action.PushWithContext { doneAt := some 0 } 7) fresh1).map
        (fun r => (r.1.q.c.buf, r.1.threads.all Thread.returned, r.1.now, r.1.out)) =
      some ([7], true, 0,
        [{ level := Level.warn, fields := [("size", 1)], failed := "blocked on Push" }]) ∧
    (call Choice.comm (Action.PushWithTimeout 0 7) fresh1).map
        (fun r => (r.1.q.c.buf, r.1.threads.all Thread.returned, r.1.now, r.1.out)) =
      some ([7], true, 0, []) := by
  refine ⟨?_, ?_, ?_⟩ <;> rfl

/-- C6 as stated fails. On a queue of capacity 0 (always full) the blocked push of 7
warns, and when the pop comes it returns, yet 7 is not stored: the buffer is empty and the
pop has the value. On a queue of capacity 0 on which a `Pop` is already waiting, a push
whose deadline has fired can be handed over at once and writes no warning. And on a full
queue of capacity 1 with two pushes waiting past their deadlines, the pop serves the push
of 8: the push of 7 is still at its plain send and 7 is not in the buffer. -/
theorem C6_counterexample :
    Len fresh0.q = (fresh0.q.c.cap : Int) ∧
    (run lateHandoffSchedule fresh0).map
        (fun r => (r.1.threads[0]?, r.1.q.c.buf, r.1.out,
          (r.1.threads[1]?).bind Thread.result)) =
      some (some (Thread.push { doneAt := some 0 } 7 PushPc.returned), [],
        [{ level := Level.warn, fields := [("size", 0)], failed := "blocked on Push" }],
        some 7) ∧
    7 ∉ ([] : List Nat) ∧
    (run readyHandoffSchedule fresh0).map
        (fun r => (r.1.threads[1]?, r.1.q.c.buf, r.1.out)) =
      some (some (Thread.push { doneAt := some 0 } 7 PushPc.returned), [], []) ∧
    (run otherServedSchedule fresh1).map
        (fun r => (r.1.threads[2]?, r.1.q.c.buf, (r.1.threads[3]?).bind Thread.result)) =
      some (some (Thread.push { doneAt := some 0 } 7 PushPc.send), [8], some 1) ∧
    7 ∉ [8] := by
  refine ⟨rfl, rfl, by decide, rfl, rfl, by decide⟩

/-- C6, amended: a push that is blocked past its deadline warns exactly once and stays
pending. On a full queue on which no receiver is waiting, a goroutine inside
`PushWithContext(ctx, e)` stays where it is whatever happens, but for one step: at the
`select`, once the deadline has fired, the deadline case, which writes exactly one
warning tagged "blocked on Push" and moves to the plain send. At the plain send the
deadline case never proceeds again, in any state, so there is no second warning however
long the wait; and at the `select` it does not proceed while the deadline has not fired,
so a push that is served before its deadline writes no warning. The queue stays full
until a pop returns a value. When a pop serves this push, `e` is delivered and nothing is
written: with a capacity of at least 1 the pop takes the oldest value and `e` enters the
buffer at the tail in the same operation, the queue being full again; with capacity 0
`e` is handed to that pop. -/
theorem C6_blocked_push (w w1 : World T) (a : Action T) (evs : List (Event T)) (i : Nat)
    (ctx : Ctx) (e : T) (pc : PushPc)
    (hth : w.threads[i]? = some (Thread.push ctx e pc)) (hpc : pc ≠ PushPc.returned)
    (hfull : w.q.c.buf.length = w.q.c.cap) (hnorecv : w.handoffReady = false)
    (hstep : step a w = some (w1, evs)) :
    (w1.threads[i]? = some (Thread.push ctx e pc) ∨
      (a = Action.run i Choice.done ∧ pc = PushPc.select ∧ ctx.Done w.now = true ∧
        w1 = w.warned i ctx e ∧ evs = [])) ∧
    (pc = PushPc.select → ctx.Done w.now = true →
      step (Action.run i Choice.done) w = some (w.warned i ctx e, [])) ∧
    (∀ w2 : World T, w2.threads[i]? = some (Thread.push ctx e PushPc.send) →
      step (Action.run i Choice.done) w2 = none) ∧
    (∀ w2 : World T, w2.threads[i]? = some (Thread.push ctx e PushPc.select) →
      ctx.Done w2.now = false → step (Action.run i Choice.done) w2 = none) ∧
    (returnedByPops w.threads w1.threads = [] → w1.q.c.buf.length = w1.q.c.cap) ∧
    (∀ v rest, w.q.c.buf = v :: rest →
      ∃ w4, run (Action.Pop :: recvRefill w.threads.length i) w =
          some (w4, [Event.received v, Event.sent e]) ∧
        w4.q.c.buf = rest ++ [e] ∧ w4.q.c.buf.length = w4.q.c.cap ∧ w4.out = w.out ∧
        w4.now = w.now ∧ w4.threads[i]? = some (Thread.push ctx e PushPc.returned) ∧
        (w4.threads[w.threads.length]?).bind Thread.result = some v) ∧
    (w.q.c.cap = 0 →
      ∃ w4, run [Action.Pop, Action.handoff i w.threads.length] w =
          some (w4, [Event.sent e, Event.received e]) ∧
        w4.q.c.buf = [] ∧ w4.out = w.out ∧ w4.now = w.now ∧
        w4.threads[i]? = some (Thread.push ctx e PushPc.returned) ∧
        (w4.threads[w.threads.length]?).bind Thread.result = some e) := by
  have hi := lt_of_getElem? _ _ _ hth
  have hnot : ¬ w.q.c.buf.length < w.q.c.cap := by omega
  have hwarn : pc = PushPc.select → ctx.Done w.now = true →
      step (Action.run i Choice.done) w = some (w.warned i ctx e, []) := by
    intro hsel hd
    subst hsel
    simp [step, hth, Thread.step, PushWithContext_step, hd, World.warned]
  refine ⟨?_, hwarn, ?_, ?_, ?_, ?_, ?_⟩
  · by_cases hr : ∃ c, a = Action.run i c
    · obtain ⟨c, rfl⟩ := hr
      rcases step_run_self w w1 evs i c ctx e pc hth hstep with
        ⟨hc, h1, h2, -, -, -, h6⟩ | ⟨-, -, h2, -⟩
      · subst hc
        rw [hwarn h1 h2] at hstep
        simp only [Option.some.injEq, Prod.mk.injEq] at hstep
        exact Or.inr ⟨rfl, h1, h2, hstep.1.symm, h6⟩
      · exact absurd h2 hnot
    · by_cases hh : ∃ j, a = Action.handoff i j
      · obtain ⟨j, rfl⟩ := hh
        have := handoffReady_of_step w i j _ hstep
        rw [hnorecv] at this
        exact absurd this (by simp)
      · exact Or.inl (step_keeps_thread w w1 a evs i ctx e pc hth hstep
          (fun c h => hr ⟨c, h⟩) (fun j h => hh ⟨j, h⟩))
  · intro w2 h2
    simp [step, h2, Thread.step, PushWithContext_step]
  · intro w2 h2 hd
    simp [step, h2, Thread.step, PushWithContext_step, hd]
  · intro hpop
    rw [(step_completed a w w1 evs hstep).2] at hpop
    obtain ⟨hc, hb, -, -⟩ := step_inv a w w1 evs hstep
    obtain ⟨hf, hle⟩ := hb (by omega)
    have hlen := congrArg List.length hf
    rw [hpop] at hlen
    simp only [List.length_append, List.length_nil, Nat.zero_add] at hlen
    omega
  · intro v rest hbuf
    have hcap : rest.length < w.q.c.cap := by
      rw [← hfull, hbuf]; simp
    have hcap2 : rest.length + 1 = w.q.c.cap := by
      rw [← hfull, hbuf]; simp
    refine ⟨{ w with q := { c := { buf := rest ++ [e], cap := w.q.c.cap } },
                     threads := w.threads.set i (Thread.push ctx e PushPc.returned) ++
                       [Thread.pop (WithTimeout w.now Background defaultChannelTimeout)
                         (PopPc.returned v)] }, ?_, rfl, ?_, rfl, rfl, ?_, ?_⟩
    · have hth2 : (w.threads ++
          [Thread.pop (WithTimeout w.now Background defaultChannelTimeout)
            (PopPc.returned v)])[i]? = some (Thread.push ctx e pc) := by
        rw [List.getElem?_append_left hi]; exact hth
      clear hstep hwarn hnorecv
      cases pc with
      | returned => exact absurd rfl hpc
      | select =>
        simp [run, recvRefill, step, World.spawn, Pop, PopWithContext, Thread.step,
          PopWithContext_step, PushWithContext_step, Chan.recv, Chan.canSend, Chan.send,
          List.set_append_left, set_length_append, hbuf, hth2, hcap, hi]
      | send =>
        simp [run, recvRefill, step, World.spawn, Pop, PopWithContext, Thread.step,
          PopWithContext_step, PushWithContext_step, Chan.recv, Chan.canSend, Chan.send,
          List.set_append_left, set_length_append, hbuf, hth2, hcap, hi]
    · simp [hcap2]
    · simp [List.getElem?_append_left, hi]
    · simp [Thread.result]
  · intro hzero
    have hnil : w.q.c.buf = [] := List.length_eq_zero.mp (by omega)
    refine ⟨{ w with threads := w.threads.set i (Thread.push ctx e PushPc.returned) ++
                       [Thread.pop (WithTimeout w.now Background defaultChannelTimeout)
                         (PopPc.returned e)] }, ?_, hnil, rfl, rfl, ?_, ?_⟩
    · have hth2 : (w.threads ++
          [Thread.pop (WithTimeout w.now Background defaultChannelTimeout)
            PopPc.select])[i]? = some (Thread.push ctx e pc) := by
        rw [List.getElem?_append_left hi]; exact hth
      clear hstep hwarn hnorecv
      cases pc with
      | returned => exact absurd rfl hpc
      | select =>
        simp [run, step, World.spawn, Pop, PopWithContext, Thread.sending, Thread.receiving,
          List.set_append_left, hnil, hth2, hi]
      | send =>
        simp [run, step, World.spawn, Pop, PopWithContext, Thread.sending, Thread.receiving,
          List.set_append_left, hnil, hth2, hi]
    · simp [List.getElem?_append_left, hi]
    · simp [Thread.result]

/-- The statement C6 (amended) at a queue of capacity 1 that holds one value, with a push
of 7 whose deadline has fired and which takes the deadline case. -/
theorem C6_blocked_push_witness :
    waiting1.threads[1]? = some (Thread.push { doneAt := some 0 } 7 PushPc.select) ∧
    PushPc.select ≠ PushPc.returned ∧
    waiting1.q.c.buf.length = waiting1.q.c.cap ∧ waiting1.handoffReady = false ∧
    step (Action.run 1 Choice.done) waiting1 = some (warned1, []) ∧
    ((warned1.threads[1]? = some (Thread.push { doneAt := some 0 } 7 PushPc.select) ∨
        ((Action.run 1 Choice.done : Action Nat) = Action.run 1 Choice.done ∧
          PushPc.select = PushPc.select ∧ Ctx.Done { doneAt := some 0 } waiting1.now = true ∧
          warned1 = waiting1.warned 1 { doneAt := some 0 } 7 ∧
          ([] : List (Event Nat)) = [])) ∧
      (PushPc.select = PushPc.select → Ctx.Done { doneAt := some 0 } waiting1.now = true →
        step (Action.run 1 Choice.done) waiting1 =
          some (waiting1.warned 1 { doneAt := some 0 } 7, [])) ∧
      (∀ w2 : World Nat,
        w2.threads[1]? = some (Thread.push { doneAt := some 0 } 7 PushPc.send) →
        step (Action.run 1 Choice.done) w2 = none) ∧
      (∀ w2 : World Nat,
        w2.threads[1]? = some (Thread.push { doneAt := some 0 } 7 PushPc.select) →
        Ctx.Done { doneAt := some 0 } w2.now = false →
        step (Action.run 1 Choice.done) w2 = none) ∧
      (returnedByPops waiting1.threads warned1.threads = [] →
        warned1.q.c.buf.length = warned1.q.c.cap) ∧
      (∀ v rest, waiting1.q.c.buf = v :: rest →
        ∃ w4, run (Action.Pop :: recvRefill waiting1.threads.length 1) waiting1 =
            some (w4, [Event.received v, Event.sent 7]) ∧
          w4.q.c.buf = rest ++ [7] ∧ w4.q.c.buf.length = w4.q.c.cap ∧
          w4.out = waiting1.out ∧ w4.now = waiting1.now ∧
          w4.threads[1]? = some (Thread.push { doneAt := some 0 } 7 PushPc.returned) ∧
          (w4.threads[waiting1.threads.length]?).bind Thread.result = some v) ∧
      (waiting1.q.c.cap = 0 →
        ∃ w4, run [Action.Pop, Action.handoff 1 waiting1.threads.length] waiting1 =
            some (w4, [Event.sent 7, Event.received 7]) ∧
          w4.q.c.buf = [] ∧ w4.out = waiting1.out ∧ w4.now = waiting1.now ∧
          w4.threads[1]? = some (Thread.push { doneAt := some 0 } 7 PushPc.returned) ∧
          (w4.threads[waiting1.threads.length]?).bind Thread.result = some 7)) :=
  ⟨rfl, by decide, rfl, rfl, rfl,
    C6_blocked_push waiting1 warned1 (Action.run 1 Choice.done) [] 1 { doneAt := some 0 } 7
      PushPc.select rfl (by decide) rfl rfl rfl⟩

/-- C7, at the failing input: on a queue that holds the value 5 the call
`PopWithContext(ctx)` with a context that is already done has both cases of its `select`
ready; when the deadline case is taken the call returns 5 at once and one
"blocked on Pop" warning has been written although the pop never waited. When the
receive case is taken nothing is written. -/
theorem C7_ready_pop_warns :
    (call Choice.done (Action.PopWithContext { doneAt := some 0 }) held1).map
        (fun r => (r.1.q.c.buf, r.1.threads.map Thread.result, r.1.now, r.1.out)) =
      some ([], [some 5], 0,
        [{ level := Level.warn, fields := [("size", 1)], failed := "blocked on Pop" }]) ∧
    (call Choice.done (Action.PopWithTimeout 0) held1).map
        (fun r => (r.1.q.c.buf, r.1.threads.map Thread.result, r.1.now, r.1.out)) =
      some ([], [some 5], 0,
        [{ level := Level.warn, fields := [("size", 1)], failed := "blocked on Pop" }]) ∧
    (call Choice.comm (Action.PopWithContext { doneAt := some 0 }) held1).map
        (fun r => (r.1.q.c.buf, r.1.threads.map Thread.result, r.1.now, r.1.out)) =
      some ([], [some 5], 0, []) := by
  refine ⟨?_, ?_, ?_⟩ <;> rfl

/-- C8: the convenience variants are the timeout variants at the default duration.
`defaultChannelTimeout` is one second; `Push(e)` and `Pop()` are `PushWithTimeout` and
`PopWithTimeout` at one second, with the same buffer, log and returned value along every
continuation; `PushWithTimeout(t, e)` and `PopWithTimeout(t)` are `PushWithContext` and
`PopWithContext` with a context that is done exactly from the instant `t` after the call
on. -/
theorem C8_convenience_variants (w : World T) (e : T) (t : Duration)
    (rest : List (Action T)) (pref : Choice) (later : Int) :
    defaultChannelTimeout = 1000000000 ∧
      Push w.now e = Push_spec w.now e ∧ (Pop w.now : Thread T) = Pop_spec w.now ∧
      run (Action.Push e :: rest) w = run (Action.PushWithTimeout 1000000000 e :: rest) w ∧
      run (Action.Pop :: rest) w = run (Action.PopWithTimeout 1000000000 :: rest) w ∧
      call pref (Action.Push e) w = call pref (Action.PushWithTimeout 1000000000 e) w ∧
      call pref Action.Pop w = call pref (Action.PopWithTimeout 1000000000) w ∧
      run (Action.PushWithTimeout t e :: rest) w =
        run (Action.PushWithContext { doneAt := some (w.now + t) } e :: rest) w ∧
      run (Action.PopWithTimeout t :: rest) w =
        run (Action.PopWithContext { doneAt := some (w.now + t) } :: rest) w ∧
      (({ doneAt := some (w.now + t) } : Ctx).Done later = true ↔ w.now + t ≤ later) := by
  have hd : defaultChannelTimeout = 1000000000 := by decide
  have hp : Push w.now e = PushWithTimeout w.now 1000000000 e := by
    simp only [Push, PushWithTimeout, hd]
  have hq : (Pop w.now : Thread T) = PopWithTimeout w.now 1000000000 := by
    simp only [Pop, PopWithTimeout, hd]
  refine ⟨hd, hp, hq, ?_, ?_, ?_, ?_, ?_, ?_, ?_⟩
  · simp only [run, step, hp]
  · simp only [run, step, hq]
  · simp only [call, step, hp]
  · simp only [call, step, hq]
  · simp only [run, step, PushWithTimeout, WithTimeout, Background]
  · simp only [run, step, PopWithTimeout, WithTimeout, Background]
  · simp [Ctx.Done]

/-- C9: the raw handle and the timed operations share one storage. For every queue value
the pointer `Channel()` reads and writes the field `c` the timed operations use, and the
call changes nothing. On an empty queue with a free slot that no goroutine is waiting on,
a value stored by `Push(x)` is what one receive through the pointer yields, leaving
`Len() = 0`; and a value sent through the pointer is what the next `Pop()` returns. The
raw sends and receives of the system are these operations through the pointer. Nothing is
written to the log on the way. -/
theorem C9_raw_handle (w : World T) (x : T) (pref prefR : Choice)
    (hquiet : w.threads.all Thread.returned = true)
    (hempty : w.q.c.buf = []) (hcap : 0 < w.q.c.cap) :
    (∀ (q : Timed T) (ch : Chan T), Channel.load q = q.c ∧ Channel.store q ch = { c := ch }) ∧
      step Action.Channel w = some (w, []) ∧
      (∃ w1 w2, call pref (Action.Push x) w = some (w1, [Event.sent x]) ∧
        Channel.recv w1.q = some (x, w2.q) ∧ Len w2.q = 0 ∧
        call prefR Action.rawRecv w1 = some (w2, [Event.received x]) ∧
        (w2.threads[w.threads.length + 1]?).bind Thread.result = some x ∧
        w2.threads.all Thread.returned = true ∧ w2.out = w.out) ∧
      (∃ w3 w4, Channel.send x w.q = some w3.q ∧
        call pref (Action.rawSend x) w = some (w3, [Event.sent x]) ∧
        call prefR Action.Pop w3 = some (w4, [Event.received x]) ∧
        (w4.threads[w.threads.length + 1]?).bind Thread.result = some x ∧
        w4.threads.all Thread.returned = true ∧ Len w4.q = 0 ∧ w4.out = w.out) := by
  refine ⟨fun q ch => ⟨rfl, rfl⟩, rfl, ?_, ?_⟩
  · have h1 := call_Push pref x w (by rw [hempty]; exact hcap)
    have h2 := call_rawRecv prefR
      { w with q := { c := w.q.c.send x },
               threads := w.threads ++
                 [Thread.push (WithTimeout w.now Background defaultChannelTimeout) x
                   PushPc.returned] } x [] (by simp [Chan.send, hempty])
    refine ⟨_, _, h1, ?_, ?_, h2, ?_, ?_, rfl⟩
    · simp [ChanPtr.recv, Channel, Chan.recv, Chan.send, hempty]
    · simp [Len, Chan.len]
    · show Option.bind ((w.threads ++ [_]) ++ [_])[w.threads.length + 1]? Thread.result = _
      rw [getElem?_append_two]
      rfl
    · simp [List.all_append, Thread.returned]
      simpa using hquiet
  · have h1 := call_rawSend pref x w (by rw [hempty]; exact hcap)
    have h2 := call_Pop prefR
      { w with q := { c := w.q.c.send x },
               threads := w.threads ++ [Thread.push Background x PushPc.returned] } x []
      (by simp [Chan.send, hempty])
    refine ⟨_, _, ?_, h1, h2, ?_, ?_, ?_, rfl⟩
    · simp [ChanPtr.send, Channel, Chan.canSend, hempty, hcap]
    · show Option.bind ((w.threads ++ [_]) ++ [_])[w.threads.length + 1]? Thread.result = _
      rw [getElem?_append_two]
      rfl
    · simp [List.all_append, Thread.returned]
      simpa using hquiet
    · simp [Len, Chan.len]

/-- The statement C9 at the program of `TestChannel`: capacity 1, the value 12345. -/
theorem C9_raw_handle_witness :
    fresh1.threads.all Thread.returned = true ∧ fresh1.q.c.buf = [] ∧ 0 < fresh1.q.c.cap ∧
      ((∀ (q : Timed Nat) (ch : Chan Nat),
          Channel.load q = q.c ∧ Channel.store q ch = { c := ch }) ∧
        step Action.Channel fresh1 = some (fresh1, []) ∧
        (∃ w1 w2, call Choice.comm (Action.Push 12345) fresh1 = some (w1, [Event.sent 12345]) ∧
          Channel.recv w1.q = some (12345, w2.q) ∧ Len w2.q = 0 ∧
          call Choice.comm Action.rawRecv w1 = some (w2, [Event.received 12345]) ∧
          (w2.threads[fresh1.threads.length + 1]?).bind Thread.result = some 12345 ∧
          w2.threads.all Thread.returned = true ∧ w2.out = fresh1.out) ∧
        (∃ w3 w4, Channel.send 12345 fresh1.q = some w3.q ∧
          call Choice.comm (Action.rawSend 12345) fresh1 = some (w3, [Event.sent 12345]) ∧
          call Choice.comm Action.Pop w3 = some (w4, [Event.received 12345]) ∧
          (w4.threads[fresh1.threads.length + 1]?).bind Thread.result = some 12345 ∧
          w4.threads.all Thread.returned = true ∧ Len w4.q = 0 ∧ w4.out = fresh1.out)) :=
  ⟨rfl, rfl, by decide, C9_raw_handle fresh1 12345 Choice.comm Choice.comm rfl rfl (by decide)⟩

/-- C10 as stated fails: `WithExpiration 1` writes no record at all (so not one
informational record); at the size 2^62, which is not negative, it panics instead of
returning a queue; and constructing another queue changes the warning a blocked push on
this queue writes: it carries the size of the other queue as well. -/
theorem C10_counterexample :
    (WithExpiration Nat { fields := [] } 1).map (fun r => r.2.2.length) = some 0 ∧
    WithExpiration Nat { fields := [] } (2 ^ 62) = none ∧
    (run blockedSchedule fresh1).map (fun r => r.1.out) =
      some [{ level := Level.warn, fields := [("size", 1)], failed := "blocked on Push" }] ∧
    (run blockedScheduleOther fresh1).map (fun r => r.1.out) =
      some [{ level := Level.warn, fields := [("size", 1), ("size", 5)],
              failed := "blocked on Push" }] := by
  refine ⟨rfl, by decide, rfl, rfl⟩

/-- C10, amended: for every `bufSize` that `make` accepts (not negative, not beyond what
the runtime grants for the element type), `WithExpiration(bufSize)` returns an empty queue
of capacity `bufSize` and writes no record; it replaces the package-level logger by a child
whose context also carries `size = bufSize`. Along every schedule the queue writes nothing
but deadline warnings. Constructing another queue leaves the buffer, the goroutines, the
records already written and the clock of this one as they are. -/
theorem C10_construction (N : Int) (L : ZLogger) (now : Int) (out : List Record)
    (as : List (Action T)) (w : World T) (tr : List (Event T)) (other other1 : World T)
    (n : Int) (evs : List (Event T))
    (hN : 0 ≤ N) (hmax : N ≤ (ChanElem.maxCap T : Int))
    (hrun : run as (World.fresh now (L.WithInt "size" N) out
        { c := { buf := [], cap := N.toNat } }) = some (w, tr))
    (hother : step (Action.WithExpiration n) other = some (other1, evs)) :
    WithExpiration T L N =
        some (L.WithInt "size" N, { c := { buf := [], cap := N.toNat } }, []) ∧
      ((N.toNat : Int) = N) ∧
      (∃ recs, w.out = out ++ recs ∧ ∀ r ∈ recs, r.isWarning) ∧
      other1.q = other.q ∧ other1.threads = other.threads ∧ other1.out = other.out ∧
      other1.now = other.now := by
  refine ⟨WithExpiration_ok L N hN hmax, by omega, ?_, ?_⟩
  · obtain ⟨-, -, -, recs, ho, hw⟩ := run_inv as _ w tr hrun
    exact ⟨recs, ho, fun r hr => (hw r hr).1⟩
  · simp only [step] at hother
    split at hother
    · rename_i l q recs heq
      obtain ⟨-, hl, -, hr⟩ := WithExpiration_eq other.Logger l n q recs heq
      simp only [Option.some.injEq, Prod.mk.injEq] at hother
      obtain ⟨h1, -⟩ := hother
      subst h1 hl hr
      simp
    · exact absurd hother (by simp)

/-- The statement C10 (amended) at capacity 1, along `blockedSchedule`, and at the
construction of another queue of capacity 5. -/
theorem C10_construction_witness :
    (0 : Int) ≤ 1 ∧ (1 : Int) ≤ (ChanElem.maxCap Nat : Int) ∧
      run blockedSchedule fresh1 = some (blockedWorld, [Event.sent 1]) ∧
      step (Action.WithExpiration 5) fresh1 = some (otherWorld, []) ∧
      (WithExpiration Nat { fields := [] } 1 =
          some (ZLogger.WithInt { fields := [] } "size" 1,
            { c := { buf := [], cap := Int.toNat 1 } }, []) ∧
        ((Int.toNat 1 : Int) = 1) ∧
        (∃ recs, blockedWorld.out = [] ++ recs ∧ ∀ r ∈ recs, r.isWarning) ∧
        otherWorld.q = fresh1.q ∧ otherWorld.threads = fresh1.threads ∧
        otherWorld.out = fresh1.out ∧ otherWorld.now = fresh1.now) :=
  ⟨by decide, by decide, rfl, rfl,
    C10_construction 1 { fields := [] } 0 [] blockedSchedule blockedWorld [Event.sent 1] fresh1
      otherWorld 5 [] (by decide) (by decide) rfl rfl⟩

end channel
